import Mathlib

/-!
Verification of an L-Store-style columnar storage engine (lstore):
pages, buffer pool, lock manager, table, query operations and the
transaction runtime, shallowly embedded from the Python sources.

Conventions of the embedding:
* machine values are `Int` with explicit two's-complement conversion at
  the page boundary (`struct.pack`/`unpack` with format "q");
* Python dictionaries are association lists preserving insertion order
  (lookup finds the first matching key, assignment updates in place,
  new keys are appended at the end, deletion removes the entry);
* Python exceptions are `Except Err`; an operation that raises returns
  `Except.error e` together with the state at the raise point (side
  effects performed before the raise are kept, as in Python);
* `while` loops over the indirection chain take an explicit fuel
  argument; running out of fuel models nontermination (`Err.fuel`);
* wall-clock timestamps are threaded as an explicit `clock` value: they
  are stored in record entries but never branch on.
-/

set_option maxRecDepth 10000

namespace LStore

/-- Byte strings: lists of naturals (each a byte value). -/
abbrev Bytes := List Nat

/-- `PAGE_SIZE = 4096` from lstore/page.py. -/
def PAGE_SIZE : Nat := 4096

/-- `INT_SIZE = 8` from lstore/page.py. -/
def INT_SIZE : Nat := 8

/-- `MAX_RECORDS = PAGE_SIZE // INT_SIZE = 512` from lstore/page.py. -/
def MAX_RECORDS : Nat := PAGE_SIZE / INT_SIZE

/-- Little-endian base-256 digits of a natural, width `w`. -/
def natLE : Nat → Nat → Bytes
  | 0, _ => []
  | w + 1, n => n % 256 :: natLE w (n / 256)

/-- `struct.pack("q", v)`: little-endian two's-complement encoding of a
signed 64-bit integer. -/
def encodeI64 (v : Int) : Bytes := natLE 8 (v.emod (2 ^ 64)).toNat

/-- `struct.unpack("q", bs)`: decode 8 little-endian bytes as a signed
64-bit integer. -/
def decodeI64 (bs : Bytes) : Int :=
  let n : Nat := (bs.take 8).foldr (fun b acc => b + 256 * acc) 0
  if n < 2 ^ 63 then (n : Int) else (n : Int) - 2 ^ 64

/-- Python exceptions relevant to the engine. -/
inductive Err where
  | pageFull      -- "Page is full"
  | outOfBounds   -- "Index out of bounds"
  | badPageSize   -- "Invalid page size for from_bytes"
  | poolExhausted -- "BufferPool is full and all pages are pinned"
  | structError   -- struct.error (offset or value out of range)
  | keyError      -- KeyError from a dict subscript
  | indexError    -- IndexError from a list subscript
  | typeError     -- TypeError (e.g. None + 1)
  | fuel          -- models a nonterminating while loop
deriving DecidableEq

/-- Read `w` consecutive bytes of a buffer starting at `off`. -/
def readBytes (d : Nat → Nat) (off w : Nat) : Bytes :=
  (List.range w).map (fun j => d (off + j))

/-- Overwrite the bytes `off .. off + bs.length` of a buffer. -/
def writeBytes (d : Nat → Nat) (off : Nat) (bs : Bytes) : Nat → Nat :=
  fun i => if off ≤ i ∧ i < off + bs.length then bs.getD (i - off) 0 else d i

/-- `Page` from lstore/page.py: a 4096-byte buffer plus the in-memory
write cursor `num_records`.  Every page buffer in the engine is exactly
`PAGE_SIZE` bytes (`bytearray(PAGE_SIZE)` at construction; `from_bytes`
rejects other sizes; `pack_into` preserves the length), so the buffer is
represented by its byte function `Nat → Nat` with the length implicit. -/
structure Page where
  data : Nat → Nat
  num_records : Nat

/-- `Page.__init__`: zeroed buffer, cursor 0. -/
def Page.new : Page := ⟨fun _ => 0, 0⟩

/-- `Page.has_capacity`. -/
def Page.has_capacity (p : Page) : Bool := p.num_records < MAX_RECORDS

/-- `struct.pack_into("q", data, offset, v)`: fails with struct.error if
the value does not fit in a signed 64-bit integer or the offset is out
of range for the 4096-byte buffer. -/
def packInto (d : Nat → Nat) (offset : Nat) (v : Int) : Except Err (Nat → Nat) :=
  if -(2 ^ 63) ≤ v ∧ v < 2 ^ 63 ∧ offset + 8 ≤ PAGE_SIZE then
    .ok (writeBytes d offset (encodeI64 v))
  else .error .structError

/-- `Page.write`: raises "Page is full" when at capacity, otherwise
packs at byte offset `8 * num_records` and increments the cursor. -/
def Page.write (p : Page) (v : Int) : Except Err Page :=
  if p.has_capacity then
    match packInto p.data (p.num_records * INT_SIZE) v with
    | .ok d => .ok ⟨d, p.num_records + 1⟩
    | .error e => .error e
  else .error .pageFull

/-- `struct.unpack_from("q", data, offset)`: a negative offset counts
from the end of the buffer, as in Python. -/
def unpackFrom (d : Nat → Nat) (offset : Int) : Except Err Int :=
  let off : Int := if offset < 0 then (PAGE_SIZE : Int) + offset else offset
  if 0 ≤ off ∧ off.toNat + 8 ≤ PAGE_SIZE then
    .ok (decodeI64 (readBytes d off.toNat 8))
  else .error .structError

/-- `Page.read(index)`: raises "Index out of bounds" iff
`index >= num_records`; otherwise unpacks at byte offset `8 * index`
(negative offsets reach the tail of the buffer, as `struct.unpack_from`
does). -/
def Page.read (p : Page) (index : Int) : Except Err Int :=
  if (p.num_records : Int) ≤ index then .error .outOfBounds
  else unpackFrom p.data (index * INT_SIZE)

/-- `Page.to_bytes`: the raw 4096-byte buffer. -/
def Page.to_bytes (p : Page) : Bytes := readBytes p.data 0 PAGE_SIZE

/-- `Page.from_bytes`: requires exactly 4096 bytes and conservatively
sets `num_records = MAX_RECORDS`. -/
def Page.from_bytes (b : Bytes) : Except Err Page :=
  if b.length = PAGE_SIZE then .ok ⟨fun i => b.getD i 0, MAX_RECORDS⟩
  else .error .badPageSize

/-- The signed 64-bit value stored at slot `s` (bytes `8*s .. 8*s+8`). -/
def Page.valueAtSlot (p : Page) (s : Nat) : Int :=
  decodeI64 (readBytes p.data (s * INT_SIZE) 8)

lemma range_map_getD (b : Bytes) : (List.range b.length).map (fun i => b.getD i 0) = b := by
  apply List.ext_get
  · simp
  · intro n h1 h2
    simp [List.getD_eq_getElem?_getD, List.getElem?_eq_getElem h2]

/-- C9: `Page.from_bytes` succeeds exactly on 4096-byte inputs, setting
`num_records = 512`, and `Page.to_bytes` then returns the input bytes
unchanged; on any other length it fails with BadPageSize. -/
theorem page_bytes_roundtrip (b : Bytes) :
    (b.length = PAGE_SIZE →
      ∃ p, Page.from_bytes b = .ok p ∧ p.num_records = 512 ∧ p.to_bytes = b) ∧
    (b.length ≠ PAGE_SIZE → Page.from_bytes b = .error .badPageSize) := by
  constructor
  · intro h
    refine ⟨⟨fun i => b.getD i 0, MAX_RECORDS⟩, ?_, by norm_num [MAX_RECORDS, PAGE_SIZE, INT_SIZE], ?_⟩
    · simp [Page.from_bytes, h]
    · show readBytes (fun i => b.getD i 0) 0 PAGE_SIZE = b
      rw [← h]
      simpa [readBytes] using range_map_getD b
  · intro h
    simp [Page.from_bytes, h]

theorem page_bytes_roundtrip_witness :
    ((List.replicate PAGE_SIZE 0).length = PAGE_SIZE ∧
      ∃ p, Page.from_bytes (List.replicate PAGE_SIZE 0) = .ok p ∧
        p.num_records = 512 ∧ p.to_bytes = List.replicate PAGE_SIZE 0) ∧
    (([] : Bytes).length ≠ PAGE_SIZE ∧ Page.from_bytes [] = .error .badPageSize) :=
  ⟨⟨by simp, (page_bytes_roundtrip (List.replicate PAGE_SIZE 0)).1 (by simp)⟩,
   ⟨by simp [PAGE_SIZE], (page_bytes_roundtrip []).2 (by simp [PAGE_SIZE])⟩⟩

/-- C10: for `-512 ≤ i ≤ -1`, `Page.read i` never fails with
OutOfBounds (the bounds check only rejects `i ≥ num_records`); it
returns the little-endian signed 64-bit value at byte offset
`4096 + 8*i`, i.e. slot `512 + i` counted from the start of the buffer,
regardless of `num_records`. -/
theorem page_read_negative_index (p : Page) (i : Int)
    (h1 : -512 ≤ i) (h2 : i ≤ -1) :
    p.read i = .ok (p.valueAtSlot (i + 512).toNat) ∧
    p.read i ≠ .error .outOfBounds := by
  have hnum : ¬((p.num_records : Int) ≤ i) := by
    have : (0 : Int) ≤ (p.num_records : Int) := Int.ofNat_nonneg _
    omega
  have hofflt : i * (INT_SIZE : Int) < 0 := by
    simp only [INT_SIZE]; omega
  have hoff : ((PAGE_SIZE : Int) + i * (INT_SIZE : Int)).toNat = (i + 512).toNat * INT_SIZE := by
    simp only [INT_SIZE, PAGE_SIZE]; omega
  have hcond : 0 ≤ (PAGE_SIZE : Int) + i * (INT_SIZE : Int) ∧
      ((PAGE_SIZE : Int) + i * (INT_SIZE : Int)).toNat + 8 ≤ PAGE_SIZE := by
    simp only [INT_SIZE, PAGE_SIZE]; omega
  constructor
  · show Page.read p i = _
    unfold Page.read unpackFrom
    rw [if_neg hnum]
    simp only [if_pos hofflt, if_pos hcond]
    unfold Page.valueAtSlot
    rw [hoff]
  · unfold Page.read unpackFrom
    rw [if_neg hnum]
    simp only [if_pos hofflt]
    split <;> simp

theorem page_read_negative_index_witness :
    (-512 ≤ (-1 : Int) ∧ (-1 : Int) ≤ -1) ∧
    (Page.new.read (-1) = .ok (Page.new.valueAtSlot ((-1 : Int) + 512).toNat) ∧
      Page.new.read (-1) ≠ .error .outOfBounds) :=
  ⟨⟨by norm_num, le_refl _⟩, page_read_negative_index Page.new (-1) (by norm_num) (le_refl _)⟩

/-! ## Python dictionaries as insertion-ordered association lists -/

/-- `d.get(k)` / `d[k]`: first entry with the given key. -/
def alookup {α β : Type} [DecidableEq α] (k : α) : List (α × β) → Option β
  | [] => none
  | (k', v) :: rest => if k' = k then some v else alookup k rest

/-- `d[k] = v`: update in place if present, append at the end if new
(Python dicts preserve insertion order). -/
def aset {α β : Type} [DecidableEq α] (k : α) (v : β) : List (α × β) → List (α × β)
  | [] => [(k, v)]
  | (k', v') :: rest => if k' = k then (k, v) :: rest else (k', v') :: aset k v rest

/-- `del d[k]` / `d.pop(k)`: remove the entry. -/
def aerase {α β : Type} [DecidableEq α] (k : α) : List (α × β) → List (α × β)
  | [] => []
  | (k', v') :: rest => if k' = k then rest else (k', v') :: aerase k rest

lemma mem_aset {α β : Type} [DecidableEq α] (k : α) (v : β) (l : List (α × β)) :
    ∀ e ∈ aset k v l, e = (k, v) ∨ e ∈ l := by
  induction l with
  | nil => simp [aset]
  | cons hd tl ih =>
    intro e he
    unfold aset at he
    split at he
    · rcases List.mem_cons.mp he with h | h
      · exact Or.inl h
      · exact Or.inr (List.mem_cons_of_mem _ h)
    · rcases List.mem_cons.mp he with h | h
      · exact Or.inr (h ▸ List.mem_cons_self _ _)
      · rcases ih e h with h' | h'
        · exact Or.inl h'
        · exact Or.inr (List.mem_cons_of_mem _ h')

lemma mem_aerase {α β : Type} [DecidableEq α] (k : α) (l : List (α × β)) :
    ∀ e ∈ aerase k l, e ∈ l := by
  induction l with
  | nil => simp [aerase]
  | cons hd tl ih =>
    intro e he
    unfold aerase at he
    split at he
    · exact List.mem_cons_of_mem _ he
    · rcases List.mem_cons.mp he with h | h
      · exact h ▸ List.mem_cons_self _ _
      · exact List.mem_cons_of_mem _ (ih e h)

/-! ## LockManager (lstore/lock_manager.py)

Per-record shared/exclusive lock table with upgrade, no-wait.  The lock
table maps a record key to `{"exclusive": txn_id or None, "shared":
set(txn_ids)}`.  The single lock-manager mutex makes each operation
atomic, so the sequential semantics below is exact. -/

/-- One lock-table entry: `{"exclusive": txn_id|None, "shared": set}`. -/
structure LockState where
  exclusive : Option Nat
  shared : Finset Nat
deriving DecidableEq

abbrev LockTable := List (Int × LockState)

/-- `LockManager.acquire_shared(rid, txn_id)`. -/
def acquireShared (lt : LockTable) (rid : Int) (txn : Nat) : Bool × LockTable :=
  match alookup rid lt with
  | none => (true, aset rid ⟨none, {txn}⟩ lt)
  | some st =>
    if st.exclusive ≠ none ∧ st.exclusive ≠ some txn then (false, lt)
    else (true, aset rid { st with shared := insert txn st.shared } lt)

/-- `LockManager.acquire_exclusive(rid, txn_id)`. -/
def acquireExclusive (lt : LockTable) (rid : Int) (txn : Nat) : Bool × LockTable :=
  match alookup rid lt with
  | none => (true, aset rid ⟨some txn, ∅⟩ lt)
  | some st =>
    if st.exclusive = some txn then (true, lt)
    else if st.exclusive ≠ none ∧ st.exclusive ≠ some txn then (false, lt)
    else if st.shared = {txn} then (true, aset rid ⟨some txn, ∅⟩ lt)
    else if st.shared ≠ ∅ then (false, lt)
    else (true, aset rid { st with exclusive := some txn } lt)

/-- `LockManager.release(rid, txn_id)`. -/
def release (lt : LockTable) (rid : Int) (txn : Nat) : Bool × LockTable :=
  match alookup rid lt with
  | none => (false, lt)
  | some st =>
    let changed := st.exclusive = some txn ∨ txn ∈ st.shared
    let st' : LockState :=
      ⟨if st.exclusive = some txn then none else st.exclusive, st.shared.erase txn⟩
    if st'.exclusive = none ∧ st'.shared = ∅ then (decide changed, aerase rid lt)
    else (decide changed, aset rid st' lt)

/-- The per-entry effect of `LockManager.release_all(txn_id)`. -/
def releaseAllEntry (txn : Nat) (st : LockState) : LockState :=
  ⟨if st.exclusive = some txn then none else st.exclusive, st.shared.erase txn⟩

/-- `LockManager.release_all(txn_id)`: clear the transaction from every
entry and drop entries left with no holders. -/
def releaseAll (lt : LockTable) (txn : Nat) : LockTable :=
  (lt.map (fun e => (e.1, releaseAllEntry txn e.2))).filter
    (fun e => !(e.2.exclusive = none ∧ e.2.shared = ∅ : Bool))

/-- The four public lock-manager calls, for reasoning about arbitrary
call sequences. -/
inductive LockOp where
  | aS (rid : Int) (txn : Nat)
  | aX (rid : Int) (txn : Nat)
  | rel (rid : Int) (txn : Nat)
  | relAll (txn : Nat)

/-- State transition of one lock-manager call (result discarded). -/
def lockStep (lt : LockTable) : LockOp → LockTable
  | .aS r t => (acquireShared lt r t).2
  | .aX r t => (acquireExclusive lt r t).2
  | .rel r t => (release lt r t).2
  | .relAll t => releaseAll lt t

/-- Lock table reached from the empty table by a sequence of calls. -/
def lockRun (ops : List LockOp) : LockTable := ops.foldl lockStep []

/-- The lock-table invariant: each entry has at most one exclusive
holder (structural: `exclusive` is an `Option`); when an exclusive
holder exists, any shared holder is that same transaction (so exclusive
and non-empty shared coexist only with the exclusive holder as the sole
shared holder); and entries with no holders are removed. -/
def LockInv (lt : LockTable) : Prop :=
  ∀ e ∈ lt, (∀ t ∈ e.2.shared, e.2.exclusive = none ∨ e.2.exclusive = some t) ∧
    (e.2.exclusive ≠ none ∨ e.2.shared ≠ ∅)

lemma alookup_mem {α β : Type} [DecidableEq α] {k : α} {v : β} :
    ∀ {l : List (α × β)}, alookup k l = some v → (k, v) ∈ l := by
  intro l
  induction l with
  | nil => simp [alookup]
  | cons hd tl ih =>
    intro h
    rcases hd with ⟨k', v'⟩
    unfold alookup at h
    by_cases hk : k' = k
    · rw [if_pos hk] at h
      cases h
      subst hk
      exact List.mem_cons_self _ _
    · rw [if_neg hk] at h
      exact List.mem_cons_of_mem _ (ih h)

lemma lockInv_aset {lt : LockTable} (h : LockInv lt) {rid : Int} {st' : LockState}
    (h1 : ∀ t ∈ st'.shared, st'.exclusive = none ∨ st'.exclusive = some t)
    (h2 : st'.exclusive ≠ none ∨ st'.shared ≠ ∅) :
    LockInv (aset rid st' lt) := by
  intro e he
  rcases mem_aset rid st' lt e he with rfl | hmem
  · exact ⟨h1, h2⟩
  · exact h e hmem

lemma lockStep_inv (lt : LockTable) (op : LockOp) (h : LockInv lt) :
    LockInv (lockStep lt op) := by
  cases op with
  | aS rid txn =>
    show LockInv (acquireShared lt rid txn).2
    unfold acquireShared
    cases halo : alookup rid lt with
    | none =>
      refine lockInv_aset h ?_ ?_ <;> simp
    | some st =>
      by_cases hc : st.exclusive ≠ none ∧ st.exclusive ≠ some txn
      · simpa [hc] using h
      · have hex : st.exclusive = none ∨ st.exclusive = some txn := by tauto
        have hmem := h _ (alookup_mem halo)
        simp only [if_neg hc]
        refine lockInv_aset h ?_ ?_
        · intro t ht
          rcases Finset.mem_insert.mp ht with rfl | ht'
          · exact hex
          · exact hmem.1 t ht'
        · right
          simp
  | aX rid txn =>
    show LockInv (acquireExclusive lt rid txn).2
    unfold acquireExclusive
    cases halo : alookup rid lt with
    | none =>
      refine lockInv_aset h ?_ ?_ <;> simp
    | some st =>
      have hmem := h _ (alookup_mem halo)
      by_cases h1 : st.exclusive = some txn
      · simpa [h1] using h
      · by_cases h2 : st.exclusive ≠ none ∧ st.exclusive ≠ some txn
        · simpa [h1, h2] using h
        · by_cases h3 : st.shared = {txn}
          · simp only [if_neg h1, if_neg h2, if_pos h3]
            refine lockInv_aset h ?_ ?_ <;> simp
          · by_cases h4 : st.shared ≠ ∅
            · simpa [h1, h2, h3, h4] using h
            · have hsh : st.shared = ∅ := by tauto
              simp only [if_neg h1, if_neg h2, if_neg h3, if_neg h4]
              refine lockInv_aset h ?_ ?_
              · intro t ht
                rw [hsh] at ht
                exact absurd ht (Finset.not_mem_empty t)
              · left
                simp
  | rel rid txn =>
    show LockInv (release lt rid txn).2
    unfold release
    cases halo : alookup rid lt with
    | none => simpa using h
    | some st =>
      have hmem := h _ (alookup_mem halo)
      dsimp only at hmem
      set st' : LockState :=
        ⟨if st.exclusive = some txn then none else st.exclusive, st.shared.erase txn⟩ with hst'
      by_cases hdrop : st'.exclusive = none ∧ st'.shared = ∅
      · simp only [if_pos hdrop]
        intro e he
        exact h e (mem_aerase rid lt e he)
      · simp only [if_neg hdrop]
        refine lockInv_aset h ?_ ?_
        · intro t ht
          have ht' : t ∈ st.shared := Finset.mem_of_mem_erase ht
          rcases hmem.1 t ht' with hx | hx
          · left
            simp [hx]
          · by_cases hsame : st.exclusive = some txn
            · left; simp [hsame]
            · right
              have htt : ¬t = txn := fun hh => hsame (hh ▸ hx)
              simp [hx, htt]
        · tauto
  | relAll txn =>
    show LockInv (releaseAll lt txn)
    intro e he
    unfold releaseAll at he
    have he' := List.mem_filter.mp he
    rcases List.mem_map.mp he'.1 with ⟨e₀, he₀, heq⟩
    have hmem := h e₀ he₀
    constructor
    · intro t ht
      rw [← heq] at ht ⊢
      have ht' : t ∈ e₀.2.shared := Finset.mem_of_mem_erase ht
      rcases hmem.1 t ht' with hx | hx
      · left
        simp [releaseAllEntry, hx]
      · by_cases hsame : e₀.2.exclusive = some txn
        · left; simp [releaseAllEntry, hsame]
        · right
          have htt : ¬t = txn := fun hh => hsame (hh ▸ hx)
          simp [releaseAllEntry, hx, htt]
    · have hp := he'.2
      rw [← heq] at hp ⊢
      by_cases hx : (releaseAllEntry txn e₀.2).exclusive = none
      · right
        intro hsh
        rw [hx, hsh] at hp
        simp at hp
      · left; exact hx

/-- C6: in every lock-table state reachable by any sequence of
`acquire_shared`, `acquire_exclusive`, `release` and `release_all`
calls, each entry has at most one exclusive holder (`exclusive` is a
single optional transaction), exclusive and non-empty shared never
coexist except that the exclusive holder may itself be the sole shared
holder, and entries with no holders are removed from the table. -/
theorem lock_table_invariant (ops : List LockOp) : LockInv (lockRun ops) := by
  have hgen : ∀ (lt : LockTable), LockInv lt → LockInv (List.foldl lockStep lt ops) := by
    induction ops with
    | nil => intro lt h; exact h
    | cons op rest ih =>
      intro lt h
      exact ih _ (lockStep_inv lt op h)
  refine hgen [] ?_
  intro e he
  exact absurd he (List.not_mem_nil e)

theorem lock_table_invariant_witness :
    LockInv (lockRun [.aX 1 2, .aS 1 2, .aS 1 3, .rel 1 2, .relAll 2]) :=
  lock_table_invariant [.aX 1 2, .aS 1 2, .aS 1 3, .rel 1 2, .relAll 2]

/-- No transaction holds any lock on `rid`. -/
def noHolders (lt : LockTable) (rid : Int) : Prop :=
  match alookup rid lt with
  | none => True
  | some st => st.exclusive = none ∧ st.shared = ∅

/-- `txn` holds the exclusive lock on `rid`. -/
def holdsX (lt : LockTable) (rid : Int) (txn : Nat) : Prop :=
  match alookup rid lt with
  | none => False
  | some st => st.exclusive = some txn

/-- `txn` holds a shared lock on `rid`. -/
def holdsS (lt : LockTable) (rid : Int) (txn : Nat) : Prop :=
  match alookup rid lt with
  | none => False
  | some st => txn ∈ st.shared

/-- `txn` is the sole shared holder on `rid`, with no exclusive holder. -/
def soleShared (lt : LockTable) (rid : Int) (txn : Nat) : Prop :=
  match alookup rid lt with
  | none => False
  | some st => st.exclusive = none ∧ st.shared = {txn}

/-- C7: `acquire_exclusive(rid, txn)` grants iff there are no current
holders, or `txn` already holds X (idempotent), or `txn` is the sole
shared holder; in the upgrade case the shared set is cleared and X is
taken in the same atomic step; and on a table satisfying the reachable
invariant it returns false (without blocking) whenever any other
transaction holds X or S on `rid`. -/
theorem acquire_exclusive_spec (lt : LockTable) (rid : Int) (txn : Nat) :
    ((acquireExclusive lt rid txn).1 = true ↔
      noHolders lt rid ∨ holdsX lt rid txn ∨ soleShared lt rid txn) ∧
    (soleShared lt rid txn →
      (acquireExclusive lt rid txn).2 = aset rid ⟨some txn, ∅⟩ lt) ∧
    (LockInv lt → (∃ t, t ≠ txn ∧ (holdsX lt rid t ∨ holdsS lt rid t)) →
      (acquireExclusive lt rid txn).1 = false) := by
  unfold acquireExclusive noHolders holdsX holdsS soleShared
  cases halo : alookup rid lt with
  | none => simp
  | some st =>
    dsimp only
    by_cases h1 : st.exclusive = some txn
    · refine ⟨by simp [h1], ?_, ?_⟩
      · rintro ⟨hx, -⟩
        rw [h1] at hx
        cases hx
      · rintro hinv ⟨t, hne, hx | hs⟩
        · rw [h1] at hx
          cases hx
          exact absurd rfl hne
        · have hmem := hinv _ (alookup_mem halo)
          dsimp only at hmem
          rcases hmem.1 t hs with he | he
          · rw [h1] at he; cases he
          · rw [h1] at he
            cases he
            exact absurd rfl hne
    · by_cases h2 : st.exclusive ≠ none ∧ st.exclusive ≠ some txn
      · refine ⟨?_, ?_, fun _ _ => by simp [h1, h2]⟩
        · simp only [if_neg h1, if_pos h2]
          constructor
          · intro hfalse; cases hfalse
          · rintro (⟨hx, -⟩ | hx | ⟨hx, -⟩) <;> exact absurd hx (by tauto)
        · rintro ⟨hx, -⟩
          exact absurd hx h2.1
      · have hex : st.exclusive = none := by
          by_cases hn : st.exclusive = none
          · exact hn
          · exact absurd ⟨hn, h1⟩ h2
        by_cases h3 : st.shared = {txn}
        · refine ⟨by simp [h1, h2, h3, hex], ?_, ?_⟩
          · intro _
            simp only [if_neg h1, if_neg h2, if_pos h3]
          · rintro hinv ⟨t, hne, hx | hs⟩
            · rw [hex] at hx; cases hx
            · rw [h3] at hs
              exact absurd (Finset.mem_singleton.mp hs) hne
        · by_cases h4 : st.shared ≠ ∅
          · refine ⟨?_, ?_, fun _ _ => by simp [h1, h2, h3, h4]⟩
            · simp only [if_neg h1, if_neg h2, if_neg h3, if_pos h4]
              constructor
              · intro hfalse; cases hfalse
              · rintro (⟨-, hsh⟩ | hx | ⟨-, hsh⟩)
                · exact absurd hsh h4
                · exact absurd hx h1
                · exact absurd hsh h3
            · rintro ⟨-, hsh⟩
              exact absurd hsh h3
          · have hsh : st.shared = ∅ := by tauto
            refine ⟨by simp [h1, h2, h3, h4, hex, hsh], ?_, ?_⟩
            · rintro ⟨-, hs⟩
              rw [hsh] at hs
              exact absurd hs.symm (Finset.singleton_ne_empty txn)
            · rintro hinv ⟨t, hne, hx | hs⟩
              · rw [hex] at hx; cases hx
              · rw [hsh] at hs
                exact absurd hs (Finset.not_mem_empty t)

theorem acquire_exclusive_spec_witness :
    LockInv [((1 : Int), LockState.mk none {5})] ∧
    (∃ t, t ≠ 7 ∧ (holdsX [((1 : Int), LockState.mk none {5})] 1 t ∨
      holdsS [((1 : Int), LockState.mk none {5})] 1 t)) ∧
    (acquireExclusive [((1 : Int), LockState.mk none {5})] 1 7).1 = false := by
  refine ⟨?_, ⟨5, by decide, Or.inr (by simp [holdsS, alookup])⟩, ?_⟩
  · intro e he
    simp only [List.mem_singleton] at he
    subst he
    refine ⟨?_, by simp⟩
    intro t ht
    exact Or.inl rfl
  · refine (acquire_exclusive_spec [((1 : Int), LockState.mk none {5})] 1 7).2.2 ?_ ?_
    · intro e he
      simp only [List.mem_singleton] at he
      subst he
      refine ⟨?_, by simp⟩
      intro t ht
      exact Or.inl rfl
    · exact ⟨5, by decide, Or.inr (by simp [holdsS, alookup])⟩

/-! ## BufferPool (lstore/bufferpool.py) -/

/-- Page key `(table_name, is_base, col_id, page_index)`. -/
abbrev PKey := String × Bool × Nat × Nat

/-- `PageFrame`: page plus pin count and dirty flag.  The
`last_used_ts` timestamp is omitted: it is written but never branched
on (eviction picks the first unpinned frame, not the least recent). -/
structure Frame where
  page : Page
  pin_count : Nat
  dirty : Bool

/-- `BufferPool` state: bounded residency table `_frames` (insertion
ordered), recency structure `_lru` (an `OrderedDict` used as an ordered
set of keys), and the filesystem reachable through lstore/storage.py
(`read_page_bytes`/`write_page_bytes`), modelled as a map from page key
to page bytes. -/
structure Pool where
  max_pages : Nat
  frames : List (PKey × Frame)
  lru : List PKey
  disk : PKey → Option Bytes

/-- `BufferPool.__init__` over a given backing store. -/
def Pool.new (m : Nat) (disk : PKey → Option Bytes) : Pool := ⟨m, [], [], disk⟩

/-- `BufferPool._touch_lru`: move the key to the end, inserting it if
absent. -/
def touchLru (pool : Pool) (key : PKey) : Pool :=
  { pool with lru := (pool.lru.erase key) ++ [key] }

/-- The first frame with `pin_count == 0` in residency iteration
order. -/
def findVictim : List (PKey × Frame) → Option (PKey × Frame)
  | [] => none
  | (k, f) :: rest => if f.pin_count = 0 then some (k, f) else findVictim rest

/-- `BufferPool._flush_if_dirty` for a frame about to be evicted. -/
def flushFrame (pool : Pool) (k : PKey) (f : Frame) : Pool :=
  if f.dirty then
    { pool with disk := fun k' => if k' = k then some f.page.to_bytes else pool.disk k' }
  else pool

/-- `BufferPool._evict_one`: flush-then-remove the first unpinned
frame; `none` when every frame is pinned (RuntimeError: pool
exhausted). -/
def evictOne (pool : Pool) : Option Pool :=
  match findVictim pool.frames with
  | none => none
  | some (k, f) =>
    let pool := flushFrame pool k f
    some { pool with frames := aerase k pool.frames, lru := pool.lru.erase k }

/-- Install a newly loaded page as a frame pinned once (tail of
`get_page`). -/
def installFrame (pool : Pool) (key : PKey) (p : Page) : Pool :=
  touchLru { pool with frames := pool.frames ++ [(key, ⟨p, 1, false⟩)] } key

/-- `BufferPool.get_page`: pin and return a resident frame, else evict
one unpinned frame when at capacity, read the backing store (creating
an empty page when `create_if_missing`), and install the frame pinned.
Returns the key of the pinned frame, or `none` for an absent page with
`create_if_missing=False`; raises PoolExhausted or BadPageSize. -/
def getPage (pool : Pool) (key : PKey) (create : Bool) : Except Err (Option PKey) × Pool :=
  match alookup key pool.frames with
  | some f =>
    let pool :=
      { pool with frames := aset key { f with pin_count := f.pin_count + 1 } pool.frames }
    (.ok (some key), touchLru pool key)
  | none =>
    let cont := fun (pool : Pool) =>
      match pool.disk key with
      | none =>
        if create then ((.ok (some key) : Except Err (Option PKey)), installFrame pool key Page.new)
        else ((.ok none : Except Err (Option PKey)), pool)
      | some b =>
        match Page.from_bytes b with
        | .ok p => ((.ok (some key) : Except Err (Option PKey)), installFrame pool key p)
        | .error e => ((.error e : Except Err (Option PKey)), pool)
    if pool.max_pages ≤ pool.frames.length then
      match evictOne pool with
      | none => (.error .poolExhausted, pool)
      | some pool' => cont pool'
    else cont pool

/-- `BufferPool.mark_dirty`. -/
def markDirty (pool : Pool) (key : PKey) : Pool :=
  match alookup key pool.frames with
  | some f => { pool with frames := aset key { f with dirty := true } pool.frames }
  | none => pool

/-- `PageFrame.unpin` plus `BufferPool.unpin`: saturating decrement of
the pin count, then touch recency. -/
def unpinFrame (pool : Pool) (key : PKey) : Pool :=
  let pool :=
    match alookup key pool.frames with
    | some f =>
      { pool with frames := aset key { f with pin_count := f.pin_count - 1 } pool.frames }
    | none => pool
  touchLru pool key

/-- Overwrite the in-memory page of a resident frame (Python callers
mutate `frame.page` through the object reference; they only do so while
holding a pin, so the frame is resident). -/
def setFramePage (pool : Pool) (key : PKey) (p : Page) : Pool :=
  match alookup key pool.frames with
  | some f => { pool with frames := aset key { f with page := p } pool.frames }
  | none => pool

lemma findVictim_some {l : List (PKey × Frame)} {k : PKey} {f : Frame}
    (h : findVictim l = some (k, f)) :
    ∃ pre post, l = pre ++ (k, f) :: post ∧ (∀ e ∈ pre, e.2.pin_count ≠ 0) ∧
      f.pin_count = 0 := by
  induction l with
  | nil => cases h
  | cons hd tl ih =>
    rcases hd with ⟨k', f'⟩
    unfold findVictim at h
    by_cases hp : f'.pin_count = 0
    · rw [if_pos hp] at h
      cases h
      exact ⟨[], tl, rfl, by simp, hp⟩
    · rw [if_neg hp] at h
      rcases ih h with ⟨pre, post, heq, hpre, hf⟩
      refine ⟨(k', f') :: pre, post, by rw [heq]; rfl, ?_, hf⟩
      intro e he
      rcases List.mem_cons.mp he with rfl | he'
      · exact hp
      · exact hpre e he'

lemma findVictim_none {l : List (PKey × Frame)} (h : ∀ e ∈ l, e.2.pin_count ≠ 0) :
    findVictim l = none := by
  induction l with
  | nil => rfl
  | cons hd tl ih =>
    rcases hd with ⟨k', f'⟩
    unfold findVictim
    rw [if_neg (h (k', f') (List.mem_cons_self _ _))]
    exact ih (fun e he => h e (List.mem_cons_of_mem _ he))

lemma nodup_keys_unique {l : List (PKey × Frame)} (h : (l.map Prod.fst).Nodup)
    {k : PKey} {a b : Frame} (ha : (k, a) ∈ l) (hb : (k, b) ∈ l) : a = b := by
  induction l with
  | nil => cases ha
  | cons hd tl ih =>
    have h' : (hd.1 :: tl.map Prod.fst).Nodup := h
    rcases List.nodup_cons.mp h' with ⟨hk, htl⟩
    rcases List.mem_cons.mp ha with heqa | ha'
    · rcases List.mem_cons.mp hb with heqb | hb'
      · have : (k, a) = (k, b) := heqa.trans heqb.symm
        exact congrArg Prod.snd this
      · rw [← heqa] at hk
        exact absurd (List.mem_map.mpr ⟨(k, b), hb', rfl⟩) hk
    · rcases List.mem_cons.mp hb with heqb | hb'
      · rw [← heqb] at hk
        exact absurd (List.mem_map.mpr ⟨(k, a), ha', rfl⟩) hk
      · exact ih htl ha' hb'

lemma mem_aerase_of_ne_key {l : List (PKey × Frame)} {e : PKey × Frame} {k : PKey}
    (he : e ∈ l) (hne : e.1 ≠ k) : e ∈ aerase k l := by
  induction l with
  | nil => cases he
  | cons hd tl ih =>
    unfold aerase
    rcases List.mem_cons.mp he with rfl | he'
    · rw [if_neg (by simpa using hne)]
      exact List.mem_cons_self _ _
    · split
      · exact he'
      · exact List.mem_cons_of_mem _ (ih he')

/-- The eviction/exhaustion contract of the buffer pool at a given
state (the body of claim C8). -/
def EvictSpec (pool : Pool) : Prop :=
  (∀ pool', evictOne pool = some pool' →
    ∃ pre k f post,
      pool.frames = pre ++ (k, f) :: post ∧
      f.pin_count = 0 ∧
      (∀ e ∈ pre, e.2.pin_count ≠ 0) ∧
      pool'.frames = aerase k pool.frames ∧
      pool'.lru = pool.lru.erase k ∧
      (∀ e ∈ pool.frames, e.2.pin_count ≠ 0 → e ∈ pool'.frames) ∧
      (f.dirty = true → pool'.disk k = some f.page.to_bytes) ∧
      (f.dirty = false → pool'.disk = pool.disk)) ∧
  ((∀ e ∈ pool.frames, e.2.pin_count ≠ 0) → evictOne pool = none) ∧
  (∀ key create, (∀ e ∈ pool.frames, e.2.pin_count ≠ 0) →
    alookup key pool.frames = none → pool.max_pages ≤ pool.frames.length →
    getPage pool key create = (.error .poolExhausted, pool))

/-- C8: the buffer pool never evicts a pinned frame: eviction scans
the residency table in iteration order, takes the first frame with
`pin_count == 0`, flushes it to disk first when dirty, and removes it
from both the residency table and the recency bookkeeping; and when the
pool is at capacity with every resident frame pinned, `get_page` for a
non-resident page fails with PoolExhausted. -/
theorem bufferpool_eviction_spec (pool : Pool)
    (hkeys : (pool.frames.map Prod.fst).Nodup) : EvictSpec pool := by
  refine ⟨?_, ?_, ?_⟩
  · intro pool' h
    unfold evictOne at h
    cases hv : findVictim pool.frames with
    | none => rw [hv] at h; cases h
    | some kf =>
      rcases kf with ⟨k, f⟩
      rw [hv] at h
      cases h
      rcases findVictim_some hv with ⟨pre, post, heq, hpre, hf⟩
      have hframes : (flushFrame pool k f).frames = pool.frames := by
        unfold flushFrame
        split <;> rfl
      have hlru : (flushFrame pool k f).lru = pool.lru := by
        unfold flushFrame
        split <;> rfl
      refine ⟨pre, k, f, post, heq, hf, hpre, by rw [hframes], by rw [hlru], ?_, ?_, ?_⟩
      · intro e he hpin
        show e ∈ aerase k (flushFrame pool k f).frames
        rw [hframes]
        refine mem_aerase_of_ne_key he ?_
        intro hek
        have he' : (k, e.2) ∈ pool.frames := by
          rw [← hek]
          exact he
        have hef : e.2 = f :=
          nodup_keys_unique hkeys he'
            (by rw [heq]; exact List.mem_append_right _ (List.mem_cons_self _ _))
        rw [hef] at hpin
        exact hpin hf
      · intro hd
        show (flushFrame pool k f).disk k = _
        unfold flushFrame
        rw [hd]
        simp
      · intro hd
        show (flushFrame pool k f).disk = _
        unfold flushFrame
        rw [hd]
        simp
  · intro hall
    unfold evictOne
    rw [findVictim_none hall]
  · intro key create hall hres hcap
    unfold getPage
    rw [hres]
    simp only [if_pos hcap]
    have hev : evictOne pool = none := by
      unfold evictOne
      rw [findVictim_none hall]
    rw [hev]

theorem bufferpool_eviction_spec_witness :
    ((([(("T", true, 0, 0), Frame.mk Page.new 1 false),
        (("T", true, 0, 1), Frame.mk Page.new 0 true)] : List (PKey × Frame)).map
        Prod.fst).Nodup) ∧
    EvictSpec (Pool.mk 2
      [(("T", true, 0, 0), Frame.mk Page.new 1 false),
       (("T", true, 0, 1), Frame.mk Page.new 0 true)]
      [("T", true, 0, 0), ("T", true, 0, 1)] (fun _ => none)) :=
  ⟨by decide, bufferpool_eviction_spec _ (by decide)⟩

/-! ## Table (lstore/table.py) and transaction state

`Modelled from the spec:` spec sections 4.4 and 5 state that every
table carries a per-table `LockManager` (used by query.py and
transaction.py as `table.lock_manager`) and four per-table metadata
mutexes (`key_to_rid_lock`, `page_directory_lock`, `next_rid_lock`,
`page_metadata_lock`).  Their initialization is not present in the
src/ copy of `Table.__init__`, although query.py and transaction.py
use them; following the spec, the lock manager is part of the system
state (`Sys.locks`) and the metadata mutexes are identities in this
sequential embedding (a `with lock:` block only sequences its body). -/

/-- A page-directory entry `[indirection, rid, timestamp, schema,
v0..vk-1]`; `schema` is the '0'/'1' string with one Bool per
character. -/
structure RecEntry where
  indirection : Nat
  rid : Nat
  ts : Int
  schema : List Bool
  cols : List Int
deriving DecidableEq

/-- `Record(rid, key, columns)` from lstore/table.py; projected-out
columns are `none`. -/
structure Record where
  rid : Nat
  key : Int
  columns : List (Option Int)
deriving DecidableEq

/-- One per-column inverted index: value (an int, or the `None` produced
by projection) to the set of base rids holding it. -/
abbrev ColIndex := List (Option Int × List Nat)

/-- `Table` metadata from lstore/table.py (`Table.__init__` /
`Index.__init__`). `base_positions[rid]` may be a positions list or the
literal `None` stored by the insert-overwrite path, hence the doubled
`Option`. -/
structure TableState where
  name : String
  num_columns : Nat
  key : Nat
  page_directory : List (Nat × RecEntry)
  key_to_rid : List (Int × Nat)
  next_rid : Nat
  base_page_counts : List Nat
  tail_page_counts : List Nat
  base_page_next_slot : List Nat
  tail_page_next_slot : List Nat
  base_positions : List (Nat × Option (List (Option (Nat × Nat))))
  tail_positions : List (Nat × Option (List (Option (Nat × Nat))))
  indices : List (Option ColIndex)
deriving Inhabited

/-- Undo-log entries written by `Transaction.log_action`. -/
inductive UndoEntry where
  | uInsert (rid : Nat) (primary_key : Int) (values : List Int)
  | uDelete (rid : Nat) (primary_key : Int) (values : List (Option Int))
  | uUpdate (rid : Nat) (prev_tail : Nat) (new_tail : Option Nat)
      (old_values : List (Option Int)) (new_values : List (Option Int))
deriving DecidableEq

/-- The whole system state a query call can read or write: the table,
the buffer pool, the table's lock manager, the undo log of the running
transaction, and the wall clock (`int(time())`, stored but never
branched on). -/
structure Sys where
  table : TableState
  pool : Pool
  locks : LockTable
  undo : List UndoEntry
  clock : Int

/-- `Table.__init__(name, num_columns, key_index)` plus
`Index.__init__` (all indices start as `None`). -/
def initTable (name : String) (num_columns key_index : Nat) : TableState :=
  { name := name
    num_columns := num_columns
    key := key_index
    page_directory := []
    key_to_rid := []
    next_rid := 1
    base_page_counts := List.replicate num_columns 0
    tail_page_counts := List.replicate num_columns 0
    base_page_next_slot := List.replicate num_columns 0
    tail_page_next_slot := List.replicate num_columns 0
    base_positions := []
    tail_positions := []
    indices := List.replicate num_columns none }

/-- `list[i] = x` with the Python IndexError on out-of-range. -/
def setE {α : Type} (l : List α) (i : Nat) (a : α) : Except Err (List α) :=
  if i < l.length then .ok (l.set i a) else .error .indexError

/-- `Index._add(column, value, rid)` on a present index
(`idx.setdefault(value, set()).add(rid)`). -/
def indexAddIdx (idx : ColIndex) (v : Option Int) (rid : Nat) : ColIndex :=
  let bucket := (alookup v idx).getD []
  let bucket' := if rid ∈ bucket then bucket else bucket ++ [rid]
  aset v bucket' idx

/-- `Index._remove(column, value, rid)` on a present index: discard the
rid and drop the bucket when it becomes empty. -/
def indexRemoveIdx (idx : ColIndex) (v : Option Int) (rid : Nat) : ColIndex :=
  match alookup v idx with
  | none => idx
  | some bucket =>
    let bucket' := bucket.erase rid
    if bucket'.isEmpty then aerase v idx else aset v bucket' idx

/-- `Table._append_to_column(is_base, col_id, value)`: allocate a fresh
page when none exists or the current one is full (resetting its cursor
to 0), then re-align the current page cursor to the metadata slot,
write the value, and advance the slot counter.  Modelled tables are
created through `Database.create_table`, which attaches the buffer
pool, so the `self.bufferpool is None` early return is dropped. -/
def appendToColumn (t : TableState) (pool : Pool) ( is_base : Bool) (col : Nat) (value : Int) :
    Except Err (Option (Nat × Nat)) × TableState × Pool :=
  if ¬(col < t.num_columns) then (.ok none, t, pool)
  else
    match (if is_base then t.base_page_counts else t.tail_page_counts).get? col with
    | none => (.error .indexError, t, pool)
    | some cnt =>
      match (if is_base then t.base_page_next_slot else t.tail_page_next_slot).get? col with
      | none => (.error .indexError, t, pool)
      | some slotv =>
        let cpi : Int := if cnt > 0 then (cnt : Int) - 1 else -1
        if cpi = -1 ∨ MAX_RECORDS ≤ slotv then
          let cpi' : Nat := (cpi + 1).toNat
          let t₁ :=
            if is_base then
              { t with base_page_counts := t.base_page_counts.set col (cpi' + 1),
                       base_page_next_slot := t.base_page_next_slot.set col 0 }
            else
              { t with tail_page_counts := t.tail_page_counts.set col (cpi' + 1),
                       tail_page_next_slot := t.tail_page_next_slot.set col 0 }
          match getPage pool (t.name, is_base, col, cpi') true with
          | (.error e, pool₁) => (.error e, t₁, pool₁)
          | (.ok none, pool₁) => appendToColumnWrite t₁ pool₁ is_base col value cpi'
          | (.ok (some fk), pool₁) =>
            let pool₂ := modifyFramePage pool₁ fk (fun p => { p with num_records := 0 })
            let pool₃ := unpinFrame (markDirty pool₂ fk) fk
            appendToColumnWrite t₁ pool₃ is_base col value cpi'
        else appendToColumnWrite t pool is_base col value cpi.toNat
where
  /-- Overwrite the in-memory page of a resident frame. -/
  modifyFramePage (pool : Pool) (key : PKey) (g : Page → Page) : Pool :=
    match alookup key pool.frames with
    | some f => { pool with frames := aset key { f with page := g f.page } pool.frames }
    | none => pool
  /-- The tail of `_append_to_column` from `slot_index = slots[col_id]`
  on: fetch the current page, force its cursor to the slot counter,
  write, bump the counter, mark dirty, unpin. -/
  appendToColumnWrite (t : TableState) (pool : Pool) ( is_base : Bool) (col : Nat)
      (value : Int) (cpi : Nat) : Except Err (Option (Nat × Nat)) × TableState × Pool :=
    match (if is_base then t.base_page_next_slot else t.tail_page_next_slot).get? col with
    | none => (.error .indexError, t, pool)
    | some slot_index =>
      match getPage pool (t.name, is_base, col, cpi) true with
      | (.error e, pool₁) => (.error e, t, pool₁)
      | (.ok none, pool₁) => (.ok none, t, pool₁)
      | (.ok (some fk), pool₁) =>
        match alookup fk pool₁.frames with
        | none => (.error .keyError, t, pool₁)
        | some f =>
          let p₁ : Page := { f.page with num_records := slot_index }
          let pool₂ := modifyFramePage pool₁ fk (fun _ => p₁)
          match p₁.write value with
          | .error e => (.error e, t, pool₂)
          | .ok p₂ =>
            let pool₃ := modifyFramePage pool₂ fk (fun _ => p₂)
            let t₁ :=
              if is_base then
                { t with base_page_next_slot := t.base_page_next_slot.set col (slot_index + 1) }
              else
                { t with tail_page_next_slot := t.tail_page_next_slot.set col (slot_index + 1) }
            let pool₄ := unpinFrame (markDirty pool₃ fk) fk
            (.ok (some (cpi, slot_index)), t₁, pool₄)

/-- `Table._append_base_record(user_columns)`. -/
def appendBaseRecord (t : TableState) (pool : Pool) :
    List (Nat × Int) → Except Err (List (Option (Nat × Nat))) × TableState × Pool
  | [] => (.ok [], t, pool)
  | (c, val) :: rest =>
    match appendToColumn t pool true c val with
    | (.error e, t₁, pool₁) => (.error e, t₁, pool₁)
    | (.ok pos, t₁, pool₁) =>
      match appendBaseRecord t₁ pool₁ rest with
      | (.error e, t₂, pool₂) => (.error e, t₂, pool₂)
      | (.ok poss, t₂, pool₂) => (.ok (pos :: poss), t₂, pool₂)

/-- `Table._append_tail_updates(updated_columns)`: positions start as
`[None] * num_columns`; only non-None columns are appended. -/
def appendTailUpdates (t : TableState) (pool : Pool) (positions : List (Option (Nat × Nat))) :
    List (Nat × Option Int) → Except Err (List (Option (Nat × Nat))) × TableState × Pool
  | [] => (.ok positions, t, pool)
  | (_, none) :: rest => appendTailUpdates t pool positions rest
  | (c, some val) :: rest =>
    match appendToColumn t pool false c val with
    | (.error e, t₁, pool₁) => (.error e, t₁, pool₁)
    | (.ok pos, t₁, pool₁) =>
      match setE positions c pos with
      | .error e => (.error e, t₁, pool₁)
      | .ok positions₁ => appendTailUpdates t₁ pool₁ positions₁ rest

/-- `Table._read_value_at(is_base, col_id, page_index, slot_index)`:
fetch the frame without creating, read the slot (the unpin in the
`finally` block runs even when the read raises), `none` when the page
is not materialized. -/
def readValueAt (t : TableState) (pool : Pool) ( is_base : Bool) (col pg slot : Nat) :
    Except Err (Option Int) × Pool :=
  match getPage pool (t.name, is_base, col, pg) false with
  | (.error e, pool₁) => (.error e, pool₁)
  | (.ok none, pool₁) => (.ok none, pool₁)
  | (.ok (some fk), pool₁) =>
    match alookup fk pool₁.frames with
    | none => (.error .keyError, pool₁)
    | some f =>
      let pool₂ := unpinFrame pool₁ fk
      match f.page.read (slot : Int) with
      | .ok v => (.ok (some v), pool₂)
      | .error e => (.error e, pool₂)

/-! ## Query (lstore/query.py) -/

/-- Result of a read operation at the Query boundary: a list of
records, or the Python literal `False`. -/
inductive QueryRet where
  | recs (rs : List Record)
  | fls
deriving DecidableEq

/-- Result of `sum`/`sum_version`: a total, or the literal `False`. -/
inductive SumRet where
  | val (v : Int)
  | fls
deriving DecidableEq

/-- The tail-collection loop `while tail_rid != 0: tail =
page_directory[tail_rid]; ...; tail_rid = tail[0]` (newest first).
Fuel exhaustion models a non-terminating chain. -/
def collectTails (pd : List (Nat × RecEntry)) : Nat → Nat → Except Err (List RecEntry)
  | 0, _ => .error .fuel
  | fuel + 1, tail_rid =>
    if tail_rid = 0 then .ok []
    else
      match alookup tail_rid pd with
      | none => .error .keyError
      | some tail =>
        match collectTails pd fuel tail.indirection with
        | .ok rest => .ok (tail :: rest)
        | .error e => .error e

/-- The version-skipping loop of `select_version`: `while tail_rid != 0
and current_version < version_to_find: tail_rid = pd[tail_rid][0];
current_version += 1`. -/
def skipTails (pd : List (Nat × RecEntry)) : Nat → Nat → Nat → Nat → Except Err Nat
  | 0, _, _, _ => .error .fuel
  | fuel + 1, tail_rid, current, target =>
    if tail_rid ≠ 0 ∧ current < target then
      match alookup tail_rid pd with
      | none => .error .keyError
      | some tail => skipTails pd fuel tail.indirection (current + 1) target
    else .ok tail_rid

/-- Python truthiness of a `.get()` on a positions dict: a non-empty
stored list; the literal stored `None` and an absent key are falsy. -/
def truthyPos : Option (Option (List (Option (Nat × Nat)))) → Option (List (Option (Nat × Nat)))
  | some (some l) => if l.isEmpty then none else some l
  | _ => none

/-- Base-version read shared verbatim by `_build_record_from_data` and
`select_version`: per column, read the page at `base_positions[c]` when
set, falling back to the directory value `base[4+c]` when the position
is `None` or the page is not materialized. -/
def readBaseColsAux (t : TableState) (base : RecEntry) (l : List (Option (Nat × Nat))) :
    List Nat → Pool → Except Err (List Int) × Pool
  | [], pool => (.ok [], pool)
  | c :: cs, pool =>
    match l.get? c with
    | none => (.error .indexError, pool)
    | some none =>
      match base.cols.get? c with
      | none => (.error .indexError, pool)
      | some v =>
        match readBaseColsAux t base l cs pool with
        | (.ok vs, pool₁) => (.ok (v :: vs), pool₁)
        | (.error e, pool₁) => (.error e, pool₁)
    | some (some (pg, slot)) =>
      match readValueAt t pool true c pg slot with
      | (.error e, pool₁) => (.error e, pool₁)
      | (.ok vopt, pool₁) =>
        let vres : Except Err Int :=
          match vopt with
          | some v => .ok v
          | none =>
            match base.cols.get? c with
            | none => .error .indexError
            | some v => .ok v
        match vres with
        | .error e => (.error e, pool₁)
        | .ok v =>
          match readBaseColsAux t base l cs pool₁ with
          | (.ok vs, pool₂) => (.ok (v :: vs), pool₂)
          | (.error e, pool₂) => (.error e, pool₂)

/-- `user_cols` from the base record (lines shared by
`_build_record_from_data` and `select_version`). -/
def readBaseCols (t : TableState) (pool : Pool) (base : RecEntry)
    (bposRaw : Option (Option (List (Option (Nat × Nat))))) :
    Except Err (List Int) × Pool :=
  match truthyPos bposRaw with
  | some l => readBaseColsAux t base l (List.range t.num_columns) pool
  | none => (.ok base.cols, pool)

/-- The per-tail update application shared verbatim by
`_build_record_from_data` and `select_version`: for each column with
schema bit '1', read `tail_positions[tail_rid][i]` when present, else
use the tail directory value, and overwrite `user_cols[i]`. -/
def applyTailCols (t : TableState) (tail : RecEntry)
    (tpos : Option (List (Option (Nat × Nat)))) :
    List Nat → List Int → Pool → Except Err (List Int) × Pool
  | [], user_cols, pool => (.ok user_cols, pool)
  | i :: is', user_cols, pool =>
    match tail.schema.get? i with
    | none => (.error .indexError, pool)
    | some false => applyTailCols t tail tpos is' user_cols pool
    | some true =>
      let step : Except Err (Option Int) × Pool :=
        match tpos with
        | some l =>
          match l.get? i with
          | none => (.error .indexError, pool)
          | some none => (.ok none, pool)
          | some (some (pg, slot)) =>
            match readValueAt t pool false i pg slot with
            | (.error e, pool₁) => (.error e, pool₁)
            | (.ok vopt, pool₁) => (.ok vopt, pool₁)
        | none => (.ok none, pool)
      match step with
      | (.error e, pool₁) => (.error e, pool₁)
      | (.ok vopt, pool₁) =>
        let vres : Except Err Int :=
          match vopt with
          | some v => .ok v
          | none =>
            match tail.cols.get? i with
            | none => .error .indexError
            | some v => .ok v
        match vres with
        | .error e => (.error e, pool₁)
        | .ok v =>
          match setE user_cols i v with
          | .error e => (.error e, pool₁)
          | .ok user_cols₁ => applyTailCols t tail tpos is' user_cols₁ pool₁

/-- `for tail in reversed(tail_records): ...` — apply the collected
tails oldest-first so newer tails overwrite older values. -/
def applyTails (t : TableState) :
    List RecEntry → List Int → Pool → Except Err (List Int) × Pool
  | [], user_cols, pool => (.ok user_cols, pool)
  | tail :: rest, user_cols, pool =>
    let tpos := truthyPos (alookup tail.rid t.tail_positions)
    match applyTailCols t tail tpos (List.range t.num_columns) user_cols pool with
    | (.error e, pool₁) => (.error e, pool₁)
    | (.ok user_cols₁, pool₁) => applyTails t rest user_cols₁ pool₁

/-- The projection loop: `user_cols[i] if include == 1 else None`. -/
def projectCols (user_cols : List Int) : List Nat → Nat → Except Err (List (Option Int))
  | [], _ => .ok []
  | include_ :: rest, i =>
    let entry : Except Err (Option Int) :=
      if include_ = 1 then
        match user_cols.get? i with
        | none => .error .indexError
        | some v => .ok (some v)
      else .ok none
    match entry with
    | .error e => .error e
    | .ok v =>
      match projectCols user_cols rest (i + 1) with
      | .error e => .error e
      | .ok vs => .ok (v :: vs)

/-- `Query._build_record_from_data(base_rid, projected_columns_index)`:
read the base version, walk the indirection chain, apply tails
oldest-first, project by the mask, and take the primary key from the
materialized columns. -/
def buildRecord (t : TableState) (pool : Pool) (base_rid : Nat) (mask : List Nat) :
    Except Err Record × Pool :=
  match alookup base_rid t.page_directory with
  | none => (.error .keyError, pool)
  | some base =>
    let bposRaw := alookup base_rid t.base_positions
    match readBaseCols t pool base bposRaw with
    | (.error e, pool₁) => (.error e, pool₁)
    | (.ok user_cols, pool₁) =>
      match collectTails t.page_directory (t.next_rid + 1) base.indirection with
      | .error e => (.error e, pool₁)
      | .ok tail_records =>
        match applyTails t tail_records.reverse user_cols pool₁ with
        | (.error e, pool₂) => (.error e, pool₂)
        | (.ok user_cols₁, pool₂) =>
          match projectCols user_cols₁ mask 0 with
          | .error e => (.error e, pool₂)
          | .ok projected =>
            match user_cols₁.get? t.key with
            | none => (.error .indexError, pool₂)
            | some primary_key => (.ok ⟨base_rid, primary_key, projected⟩, pool₂)

/-- Catch-all of the `try/except` wrapping a Query operation: any
raised exception becomes the given default (`False`). -/
def catchQ {α : Type} (r : Except Err α × Sys) (dflt : α) : Except Err α × Sys :=
  match r with
  | (.ok a, s) => (.ok a, s)
  | (.error _, s) => (.ok dflt, s)

/-- `[self._build_record_from_data(rid, mask) for rid in rids]`. -/
def buildMany (t : TableState) (mask : List Nat) :
    List Nat → Pool → Except Err (List Record) × Pool
  | [], pool => (.ok [], pool)
  | rid :: rest, pool =>
    match buildRecord t pool rid mask with
    | (.error e, pool₁) => (.error e, pool₁)
    | (.ok rec, pool₁) =>
      match buildMany t mask rest pool₁ with
      | (.error e, pool₂) => (.error e, pool₂)
      | (.ok recs, pool₂) => (.ok (rec :: recs), pool₂)

/-- The projection of the linear-scan fallback of `select`
(`full.columns[i] if include == 1 else None`). -/
def projectFromOpt (cols : List (Option Int)) : List Nat → Nat → Except Err (List (Option Int))
  | [], _ => .ok []
  | include_ :: rest, i =>
    let entry : Except Err (Option Int) :=
      if include_ = 1 then
        match cols.get? i with
        | none => .error .indexError
        | some v => .ok v
      else .ok none
    match entry with
    | .error e => .error e
    | .ok v =>
      match projectFromOpt cols rest (i + 1) with
      | .error e => .error e
      | .ok vs => .ok (v :: vs)

/-- The linear-scan fallback of `select`: materialize every base rid in
`key_to_rid` with the full mask and keep those whose column
`search_key_index` equals the search key. -/
def scanSelect (t : TableState) (mask : List Nat) (search_key : Int) (search_key_index : Nat) :
    List (Int × Nat) → Pool → Except Err (List Record) × Pool
  | [], pool => (.ok [], pool)
  | (_, rid) :: rest, pool =>
    match buildRecord t pool rid (List.replicate t.num_columns 1) with
    | (.error e, pool₁) => (.error e, pool₁)
    | (.ok full, pool₁) =>
      match full.columns.get? search_key_index with
      | none => (.error .indexError, pool₁)
      | some v =>
        if v = some search_key then
          match projectFromOpt full.columns mask 0 with
          | .error e => (.error e, pool₁)
          | .ok projected =>
            match scanSelect t mask search_key search_key_index rest pool₁ with
            | (.error e, pool₂) => (.error e, pool₂)
            | (.ok recs, pool₂) =>
              (.ok (⟨full.rid, full.key, projected⟩ :: recs), pool₂)
        else scanSelect t mask search_key search_key_index rest pool₁

/-- The body of `Query.select` after the lock prologue: primary-key
fast path, secondary-index path, or linear scan. -/
def selectBody (s : Sys) (search_key : Int) (search_key_index : Nat) (mask : List Nat) :
    Except Err QueryRet × Sys :=
  let t := s.table
  if search_key_index = t.key then
    match alookup search_key t.key_to_rid with
    | none => (.ok (.recs []), s)
    | some rid =>
      match buildRecord t s.pool rid mask with
      | (.error e, pool₁) => (.error e, { s with pool := pool₁ })
      | (.ok rec, pool₁) => (.ok (.recs [rec]), { s with pool := pool₁ })
  else
    match t.indices.get? search_key_index with
    | none => (.error .indexError, s)
    | some (some idx) =>
      let rids := (alookup (some search_key) idx).getD []
      match buildMany t mask rids s.pool with
      | (.error e, pool₁) => (.error e, { s with pool := pool₁ })
      | (.ok recs, pool₁) => (.ok (.recs recs), { s with pool := pool₁ })
    | some none =>
      match scanSelect t mask search_key search_key_index t.key_to_rid s.pool with
      | (.error e, pool₁) => (.error e, { s with pool := pool₁ })
      | (.ok recs, pool₁) => (.ok (.recs recs), { s with pool := pool₁ })

/-- `Query.select(search_key, search_key_index,
projected_columns_index, transaction)` before its `try/except`: a
transactional primary-key search first acquires a shared lock and
returns `False` on conflict. -/
def selectCore (s : Sys) (txn : Option Nat) (search_key : Int) (search_key_index : Nat)
    (mask : List Nat) : Except Err QueryRet × Sys :=
  match txn with
  | some tid =>
    if search_key_index = s.table.key then
      let g := acquireShared s.locks search_key tid
      let s₁ := { s with locks := g.2 }
      if g.1 then selectBody s₁ search_key search_key_index mask
      else (.ok .fls, s₁)
    else selectBody s search_key search_key_index mask
  | none => selectBody s search_key search_key_index mask

/-- `Query.select`: the core wrapped by `try/except → False`. -/
def selectQ (s : Sys) (txn : Option Nat) (search_key : Int) (search_key_index : Nat)
    (mask : List Nat) : Except Err QueryRet × Sys :=
  catchQ (selectCore s txn search_key search_key_index mask) .fls

/-- The body of `Query.select_version` after the lock prologue:
primary-key search only (`False` otherwise); skip the
`abs(relative_version)` newest tails, then apply the remaining tails
oldest-first over the base version. -/
def selectVersionBody (s : Sys) (search_key : Int) (search_key_index : Nat)
    (mask : List Nat) (relative_version : Int) : Except Err QueryRet × Sys :=
  let t := s.table
  if search_key_index ≠ t.key then (.ok .fls, s)
  else
    match alookup search_key t.key_to_rid with
    | none => (.ok (.recs []), s)
    | some base_rid =>
      match alookup base_rid t.page_directory with
      | none => (.error .keyError, s)
      | some base =>
        let bposRaw := alookup base_rid t.base_positions
        match readBaseCols t s.pool base bposRaw with
        | (.error e, pool₁) => (.error e, { s with pool := pool₁ })
        | (.ok user_cols, pool₁) =>
          let version_to_find := relative_version.natAbs
          match skipTails t.page_directory (t.next_rid + 1) base.indirection 0 version_to_find with
          | .error e => (.error e, { s with pool := pool₁ })
          | .ok tail_rid =>
            match collectTails t.page_directory (t.next_rid + 1) tail_rid with
            | .error e => (.error e, { s with pool := pool₁ })
            | .ok tail_records =>
              match applyTails t tail_records.reverse user_cols pool₁ with
              | (.error e, pool₂) => (.error e, { s with pool := pool₂ })
              | (.ok user_cols₁, pool₂) =>
                match projectCols user_cols₁ mask 0 with
                | .error e => (.error e, { s with pool := pool₂ })
                | .ok projected =>
                  match user_cols₁.get? t.key with
                  | none => (.error .indexError, { s with pool := pool₂ })
                  | some primary_key =>
                    (.ok (.recs [⟨base_rid, primary_key, projected⟩]), { s with pool := pool₂ })

/-- `Query.select_version(search_key, search_key_index, mask,
relative_version, transaction)` before its `try/except`. -/
def selectVersionCore (s : Sys) (txn : Option Nat) (search_key : Int)
    (search_key_index : Nat) (mask : List Nat) (relative_version : Int) :
    Except Err QueryRet × Sys :=
  match txn with
  | some tid =>
    if search_key_index = s.table.key then
      let g := acquireShared s.locks search_key tid
      let s₁ := { s with locks := g.2 }
      if g.1 then selectVersionBody s₁ search_key search_key_index mask relative_version
      else (.ok .fls, s₁)
    else selectVersionBody s search_key search_key_index mask relative_version
  | none => selectVersionBody s search_key search_key_index mask relative_version

/-- `Query.select_version`: the core wrapped by `try/except → False`. -/
def selectVersionQ (s : Sys) (txn : Option Nat) (search_key : Int) (search_key_index : Nat)
    (mask : List Nat) (relative_version : Int) : Except Err QueryRet × Sys :=
  catchQ (selectVersionCore s txn search_key search_key_index mask relative_version) .fls

/-- `for c in range(num_columns): if indices[c] is not None:
_add(c, columns[c], rid)` (insert). -/
def addIndexLoop (cols : List Int) (rid : Nat) :
    List (Option ColIndex) → List Nat → Except Err (List (Option ColIndex))
  | indices, [] => .ok indices
  | indices, c :: cs =>
    match indices.get? c with
    | none => .error .indexError
    | some none => addIndexLoop cols rid indices cs
    | some (some idx) =>
      match cols.get? c with
      | none => .error .indexError
      | some v => addIndexLoop cols rid (indices.set c (some (indexAddIdx idx (some v) rid))) cs

/-- The index-refresh loop of the insert-overwrite path: remove the old
materialized value, add the new one. -/
def refreshIndexLoop (oldCols : List (Option Int)) (cols : List Int) (rid : Nat) :
    List (Option ColIndex) → List Nat → Except Err (List (Option ColIndex))
  | indices, [] => .ok indices
  | indices, c :: cs =>
    match indices.get? c with
    | none => .error .indexError
    | some none => refreshIndexLoop oldCols cols rid indices cs
    | some (some idx) =>
      match oldCols.get? c with
      | none => .error .indexError
      | some ov =>
        match cols.get? c with
        | none => .error .indexError
        | some nv =>
          refreshIndexLoop oldCols cols rid
            (indices.set c (some (indexAddIdx (indexRemoveIdx idx ov rid) (some nv) rid))) cs

/-- The index-removal loop of `delete`. -/
def removeIndexLoop (oldCols : List (Option Int)) (rid : Nat) :
    List (Option ColIndex) → List Nat → Except Err (List (Option ColIndex))
  | indices, [] => .ok indices
  | indices, c :: cs =>
    match indices.get? c with
    | none => .error .indexError
    | some none => removeIndexLoop oldCols rid indices cs
    | some (some idx) =>
      match oldCols.get? c with
      | none => .error .indexError
      | some ov => removeIndexLoop oldCols rid (indices.set c (some (indexRemoveIdx idx ov rid))) cs

/-- The index-update loop of `update`: only for columns with a set
value (`new_val is not None` is checked before the index subscript). -/
def updateIndexLoop (oldCols : List (Option Int)) (rid : Nat) :
    List (Option ColIndex) → List (Nat × Option Int) → Except Err (List (Option ColIndex))
  | indices, [] => .ok indices
  | indices, (_, none) :: rest => updateIndexLoop oldCols rid indices rest
  | indices, (c, some nv) :: rest =>
    match indices.get? c with
    | none => .error .indexError
    | some none => updateIndexLoop oldCols rid indices rest
    | some (some idx) =>
      match oldCols.get? c with
      | none => .error .indexError
      | some ov =>
        updateIndexLoop oldCols rid
          (indices.set c (some (indexAddIdx (indexRemoveIdx idx ov rid) (some nv) rid))) rest

/-- The body of `Query.insert` after arity check and lock prologue:
overwrite an existing key in place, or allocate a fresh rid, install
directory and key map entries, append the columns to base pages, record
positions, and add to every built index. -/
def insertBody (s : Sys) (txn : Option Nat) (cols : List Int) (primary_key : Int) :
    Except Err Bool × Sys :=
  let t := s.table
  match alookup primary_key t.key_to_rid with
  | some existing_rid =>
    match buildRecord t s.pool existing_rid (List.replicate t.num_columns 1) with
    | (.error e, pool₁) => (.error e, { s with pool := pool₁ })
    | (.ok old_full, pool₁) =>
      let record_data : RecEntry :=
        ⟨0, existing_rid, s.clock, List.replicate t.num_columns false, cols⟩
      let t₁ := { t with page_directory := aset existing_rid record_data t.page_directory }
      let t₂ := { t₁ with base_positions := aset existing_rid none t₁.base_positions }
      match refreshIndexLoop old_full.columns cols existing_rid t₂.indices
          (List.range t.num_columns) with
      | .error e => (.error e, { s with table := t₂, pool := pool₁ })
      | .ok indices₁ =>
        let t₃ := { t₂ with indices := indices₁ }
        let s₂ := { s with table := t₃, pool := pool₁ }
        let s₃ :=
          match txn with
          | some _ =>
            { s₂ with undo := s₂.undo ++
                [.uUpdate existing_rid 0 none old_full.columns (cols.map some)] }
          | none => s₂
        (.ok true, s₃)
  | none =>
    let rid := t.next_rid
    let t₁ := { t with next_rid := t.next_rid + 1 }
    let record_data : RecEntry := ⟨0, rid, s.clock, List.replicate t.num_columns false, cols⟩
    let t₂ := { t₁ with page_directory := aset rid record_data t₁.page_directory }
    let t₃ := { t₂ with key_to_rid := aset primary_key rid t₂.key_to_rid }
    match appendBaseRecord t₃ s.pool cols.enum with
    | (.error e, t₄, pool₁) => (.error e, { s with table := t₄, pool := pool₁ })
    | (.ok positions, t₄, pool₁) =>
      let t₅ := { t₄ with base_positions := aset rid (some positions) t₄.base_positions }
      match addIndexLoop cols rid t₅.indices (List.range t.num_columns) with
      | .error e => (.error e, { s with table := t₅, pool := pool₁ })
      | .ok indices₁ =>
        let t₆ := { t₅ with indices := indices₁ }
        let s₂ := { s with table := t₆, pool := pool₁ }
        let s₃ :=
          match txn with
          | some _ => { s₂ with undo := s₂.undo ++ [.uInsert rid primary_key cols] }
          | none => s₂
        (.ok true, s₃)

/-- `Query.insert(*columns, transaction)` before its `try/except`:
arity check, exclusive lock on the primary key under a transaction,
then the insert body. -/
def insertCore (s : Sys) (txn : Option Nat) (cols : List Int) : Except Err Bool × Sys :=
  let t := s.table
  if cols.length ≠ t.num_columns then (.ok false, s)
  else
    match cols.get? t.key with
    | none => (.error .indexError, s)
    | some primary_key =>
      match txn with
      | some tid =>
        let g := acquireExclusive s.locks primary_key tid
        let s₁ := { s with locks := g.2 }
        if g.1 then insertBody s₁ txn cols primary_key
        else (.ok false, s₁)
      | none => insertBody s txn cols primary_key

/-- `Query.insert`: the core wrapped by `try/except → False`. -/
def insertQ (s : Sys) (txn : Option Nat) (cols : List Int) : Except Err Bool × Sys :=
  catchQ (insertCore s txn cols) false

/-- The body of `Query.update` after the lock prologue: snapshot the
old record, build the tail entry with the prior indirection, splice it
in as the new head of the chain, append the set columns to tail pages,
and fix up the indexes. -/
def updateBody (s : Sys) (txn : Option Nat) (primary_key : Int) (cols : List (Option Int)) :
    Except Err Bool × Sys :=
  let t := s.table
  if cols.length ≠ t.num_columns then (.ok false, s)
  else
    match alookup primary_key t.key_to_rid with
    | none => (.ok false, s)
    | some base_rid =>
      match buildRecord t s.pool base_rid (List.replicate t.num_columns 1) with
      | (.error e, pool₁) => (.error e, { s with pool := pool₁ })
      | (.ok old_full, pool₁) =>
        match alookup base_rid t.page_directory with
        | none => (.error .keyError, { s with pool := pool₁ })
        | some base =>
          let latest_tail_rid := base.indirection
          let schema : List Bool := cols.map (fun c => c.isSome)
          if ¬(true ∈ schema) then (.ok true, { s with pool := pool₁ })
          else
            let tail_rid := t.next_rid
            let t₁ := { t with next_rid := t.next_rid + 1 }
            let tail_values : List Int := cols.map (fun c => c.getD 0)
            let tail_data : RecEntry := ⟨latest_tail_rid, tail_rid, s.clock, schema, tail_values⟩
            let pd₁ := aset tail_rid tail_data t₁.page_directory
            -- `base[0] = tail_rid` mutates the looked-up entry object; it
            -- reaches the directory only while pd[base_rid] is still that
            -- object, i.e. unless the tail entry just replaced it
            let pd₂ :=
              if base_rid = tail_rid then pd₁
              else aset base_rid { base with indirection := tail_rid } pd₁
            let t₂ := { t₁ with page_directory := pd₂ }
            match appendTailUpdates t₂ pool₁ (List.replicate t.num_columns none) cols.enum with
            | (.error e, t₃, pool₂) => (.error e, { s with table := t₃, pool := pool₂ })
            | (.ok positions, t₃, pool₂) =>
              let t₄ :=
                { t₃ with tail_positions := aset tail_rid (some positions) t₃.tail_positions }
              match updateIndexLoop old_full.columns base_rid t₄.indices cols.enum with
              | .error e => (.error e, { s with table := t₄, pool := pool₂ })
              | .ok indices₁ =>
                let t₅ := { t₄ with indices := indices₁ }
                let s₂ := { s with table := t₅, pool := pool₂ }
                let s₃ :=
                  match txn with
                  | some _ =>
                    { s₂ with undo := s₂.undo ++
                        [.uUpdate base_rid latest_tail_rid (some tail_rid)
                          old_full.columns cols] }
                  | none => s₂
                (.ok true, s₃)

/-- `Query.update(primary_key, *columns, transaction)` before its
`try/except`. -/
def updateCore (s : Sys) (txn : Option Nat) (primary_key : Int) (cols : List (Option Int)) :
    Except Err Bool × Sys :=
  match txn with
  | some tid =>
    let g := acquireExclusive s.locks primary_key tid
    let s₁ := { s with locks := g.2 }
    if g.1 then updateBody s₁ txn primary_key cols
    else (.ok false, s₁)
  | none => updateBody s txn primary_key cols

/-- `Query.update`: the core wrapped by `try/except → False`. -/
def updateQ (s : Sys) (txn : Option Nat) (primary_key : Int) (cols : List (Option Int)) :
    Except Err Bool × Sys :=
  catchQ (updateCore s txn primary_key cols) false

/-- The body of `Query.delete` after the lock prologue: snapshot,
undo-log, remove from every built index, tombstone the directory entry
(rid field set to 0), and drop the key map entry. -/
def deleteBody (s : Sys) (txn : Option Nat) (primary_key : Int) : Except Err Bool × Sys :=
  let t := s.table
  match alookup primary_key t.key_to_rid with
  | none => (.ok false, s)
  | some base_rid =>
    match buildRecord t s.pool base_rid (List.replicate t.num_columns 1) with
    | (.error e, pool₁) => (.error e, { s with pool := pool₁ })
    | (.ok full, pool₁) =>
      let s₁ := { s with pool := pool₁ }
      let s₂ :=
        match txn with
        | some _ => { s₁ with undo := s₁.undo ++ [.uDelete base_rid primary_key full.columns] }
        | none => s₁
      match removeIndexLoop full.columns base_rid s₂.table.indices (List.range t.num_columns) with
      | .error e => (.error e, s₂)
      | .ok indices₁ =>
        let t₁ := { s₂.table with indices := indices₁ }
        match alookup base_rid t₁.page_directory with
        | none => (.error .keyError, { s₂ with table := t₁ })
        | some base_record =>
          let tombstoned : RecEntry := { base_record with rid := 0 }
          let t₂ := { t₁ with page_directory := aset base_rid tombstoned t₁.page_directory }
          let t₃ := { t₂ with key_to_rid := aerase primary_key t₂.key_to_rid }
          (.ok true, { s₂ with table := t₃ })

/-- `Query.delete(primary_key, transaction)` before its `try/except`. -/
def deleteCore (s : Sys) (txn : Option Nat) (primary_key : Int) : Except Err Bool × Sys :=
  match txn with
  | some tid =>
    let g := acquireExclusive s.locks primary_key tid
    let s₁ := { s with locks := g.2 }
    if g.1 then deleteBody s₁ txn primary_key
    else (.ok false, s₁)
  | none => deleteBody s txn primary_key

/-- `Query.delete`: the core wrapped by `try/except → False`. -/
def deleteQ (s : Sys) (txn : Option Nat) (primary_key : Int) : Except Err Bool × Sys :=
  catchQ (deleteCore s txn primary_key) false

/-- The range-aggregation loop of `Query.sum`. -/
def sumAux (t : TableState) (start_range end_range : Int) (agg : Nat) :
    List (Int × Nat) → Int → Bool → Pool → Except Err (Int × Bool) × Pool
  | [], total, found, pool => (.ok (total, found), pool)
  | (key, rid) :: rest, total, found, pool =>
    if start_range ≤ key ∧ key ≤ end_range then
      match buildRecord t pool rid (List.replicate t.num_columns 1) with
      | (.error e, pool₁) => (.error e, pool₁)
      | (.ok rec, pool₁) =>
        match rec.columns.get? agg with
        | none => (.error .indexError, pool₁)
        | some none => (.error .typeError, pool₁)
        | some (some v) => sumAux t start_range end_range agg rest (total + v) true pool₁
    else sumAux t start_range end_range agg rest total found pool

/-- `Query.sum(start_range, end_range, aggregate_column_index)` before
its `try/except` (no transaction parameter in the source). -/
def sumCore (s : Sys) (start_range end_range : Int) (agg : Nat) : Except Err SumRet × Sys :=
  match sumAux s.table start_range end_range agg s.table.key_to_rid 0 false s.pool with
  | (.error e, pool₁) => (.error e, { s with pool := pool₁ })
  | (.ok (total, found), pool₁) =>
    (.ok (if found then .val total else .fls), { s with pool := pool₁ })

/-- `Query.sum`: the core wrapped by `try/except → False`. -/
def sumQ (s : Sys) (start_range end_range : Int) (agg : Nat) : Except Err SumRet × Sys :=
  catchQ (sumCore s start_range end_range agg) .fls

/-- The loop of `Query.sum_version`: per key in range, call the public
`select_version` (with no transaction) and aggregate non-None values of
the chosen column; `found_any` follows the truthiness of the result. -/
def sumVersionAux (start_range end_range : Int) (agg : Nat) (rv : Int) :
    List (Int × Nat) → Int → Bool → Sys → Except Err (Int × Bool) × Sys
  | [], total, found, s => (.ok (total, found), s)
  | (key, _) :: rest, total, found, s =>
    if start_range ≤ key ∧ key ≤ end_range then
      match selectVersionQ s none key s.table.key (List.replicate s.table.num_columns 1) rv with
      | (.error e, s₁) => (.error e, s₁)
      | (.ok .fls, s₁) => sumVersionAux start_range end_range agg rv rest total found s₁
      | (.ok (.recs []), s₁) => sumVersionAux start_range end_range agg rv rest total found s₁
      | (.ok (.recs (record :: _)), s₁) =>
        match record.columns.get? agg with
        | none => (.error .indexError, s₁)
        | some none => sumVersionAux start_range end_range agg rv rest total true s₁
        | some (some v) => sumVersionAux start_range end_range agg rv rest (total + v) true s₁
    else sumVersionAux start_range end_range agg rv rest total found s

/-- `Query.sum_version(start_range, end_range, agg, relative_version)`
before its `try/except`. -/
def sumVersionCore (s : Sys) (start_range end_range : Int) (agg : Nat) (rv : Int) :
    Except Err SumRet × Sys :=
  match sumVersionAux start_range end_range agg rv s.table.key_to_rid 0 false s with
  | (.error e, s₁) => (.error e, s₁)
  | (.ok (total, found), s₁) => (.ok (if found then .val total else .fls), s₁)

/-- `Query.sum_version`: the core wrapped by `try/except → False`. -/
def sumVersionQ (s : Sys) (start_range end_range : Int) (agg : Nat) (rv : Int) :
    Except Err SumRet × Sys :=
  catchQ (sumVersionCore s start_range end_range agg rv) .fls

/-- `Query.increment(key, column, transaction)`: `select` with the full
mask, then `update` with `value + 1` at the chosen column.  This is the
one Query operation with NO `try/except` of its own: the subscripts
`r.columns[column]`, the addition, and `updated_columns[column] = ...`
can raise across the Query boundary. -/
def incrementQ (s : Sys) (txn : Option Nat) (key : Int) (column : Nat) :
    Except Err Bool × Sys :=
  match selectQ s txn key s.table.key (List.replicate s.table.num_columns 1) with
  | (.error e, s₁) => (.error e, s₁)
  | (.ok .fls, s₁) => (.ok false, s₁)
  | (.ok (.recs []), s₁) => (.ok false, s₁)
  | (.ok (.recs (r :: _)), s₁) =>
    match r.columns.get? column with
    | none => (.error .indexError, s₁)
    | some none => (.error .typeError, s₁)
    | some (some v) =>
      match setE (List.replicate s₁.table.num_columns none) column (some (v + 1)) with
      | .error e => (.error e, s₁)
      | .ok updated_columns => updateQ s₁ txn key updated_columns

/-! ## Claims about the query operations -/

/-- A fresh database system: `Database.open` with an empty directory
(`BufferPool(128)`, empty store) and `create_table("Grades", 5, 0)`. -/
def sysC1 : Sys :=
  { table := initTable "Grades" 5 0, pool := Pool.new 128 (fun _ => none),
    locks := [], undo := [], clock := 0 }

/-- C1: on a freshly created table with 5 columns and key index 0, a
non-transactional `insert(1,2,3,4,5)` returns true, and a subsequent
`select(1, 0, [1,1,1,1,1])` returns a one-element list whose record
has columns `[1,2,3,4,5]`. -/
theorem insert_select_scenario :
    (insertQ sysC1 none [1, 2, 3, 4, 5]).1 = .ok true ∧
    (selectQ (insertQ sysC1 none [1, 2, 3, 4, 5]).2 none 1 0 [1, 1, 1, 1, 1]).1 =
      .ok (.recs [⟨1, 1, [some 1, some 2, some 3, some 4, some 5]⟩]) :=
  ⟨rfl, rfl⟩

lemma skipTails_target_zero (pd : List (Nat × RecEntry)) (fuel r c : Nat) :
    skipTails pd (fuel + 1) r c 0 = .ok r := by
  unfold skipTails
  rw [if_neg]
  rintro ⟨-, hc⟩
  exact absurd hc (Nat.not_lt_zero c)

lemma selectVersionBody_zero (s : Sys) (k : Int) (mask : List Nat) :
    selectVersionBody s k s.table.key mask 0 = selectBody s k s.table.key mask := by
  unfold selectVersionBody selectBody
  dsimp only
  rw [if_neg (by simp), if_pos rfl]
  cases halo : alookup k s.table.key_to_rid with
  | none => rfl
  | some base_rid =>
    dsimp only
    unfold buildRecord
    cases hpd : alookup base_rid s.table.page_directory with
    | none => rfl
    | some base =>
      dsimp only
      rcases hrb : readBaseCols s.table s.pool base (alookup base_rid s.table.base_positions)
        with ⟨r, pool₁⟩
      cases r with
      | error e => rfl
      | ok user_cols =>
        dsimp only [Int.natAbs_zero]
        rw [skipTails_target_zero]
        dsimp only
        cases hct : collectTails s.table.page_directory (s.table.next_rid + 1) base.indirection with
        | error e => rfl
        | ok tail_records =>
          dsimp only
          rcases hat : applyTails s.table tail_records.reverse user_cols pool₁ with ⟨r₂, pool₂⟩
          cases r₂ with
          | error e => rfl
          | ok user_cols₁ =>
            dsimp only
            cases hpc : projectCols user_cols₁ mask 0 with
            | error e => rfl
            | ok projected =>
              dsimp only
              cases user_cols₁.get? s.table.key <;> rfl

/-- C5: for every system state, transaction context, primary key and
projection mask, `select_version(k, key, mask, 0)` returns exactly the
result (and final state) of `select(k, key, mask)`. -/
theorem select_version_zero_eq_select (s : Sys) (txn : Option Nat) (k : Int)
    (mask : List Nat) :
    selectVersionQ s txn k s.table.key mask 0 = selectQ s txn k s.table.key mask := by
  unfold selectVersionQ selectQ selectVersionCore selectCore
  cases txn with
  | none => rw [selectVersionBody_zero]
  | some tid =>
    dsimp only
    rw [if_pos rfl, if_pos rfl]
    by_cases hg : (acquireShared s.locks k tid).1 = true
    · rw [if_pos hg, if_pos hg]
      have := selectVersionBody_zero
        { s with locks := (acquireShared s.locks k tid).2 } k mask
      rw [this]
    · rw [if_neg hg, if_neg hg]

/-- `Except.isOk` as a Bool (an operation did not raise). -/
def isOkB {α : Type} : Except Err α → Bool
  | .ok _ => true
  | .error _ => false

/-- C4: on any system whose table maps primary key `k` to a live,
materializable record, a non-transactional
`update(k, None, ..., None)` — the no-update sentinel in every column
position — returns true and leaves the whole table state
(page_directory, key_to_rid, next_rid, page counters and slots,
positions, indexes), the lock table and the undo log unchanged. -/
theorem update_all_none_noop (s : Sys) (k : Int) (rid : Nat)
    (h1 : alookup k s.table.key_to_rid = some rid)
    (h2 : isOkB (buildRecord s.table s.pool rid
      (List.replicate s.table.num_columns 1)).1 = true) :
    (updateQ s none k (List.replicate s.table.num_columns none)).1 = .ok true ∧
    (updateQ s none k (List.replicate s.table.num_columns none)).2.table = s.table ∧
    (updateQ s none k (List.replicate s.table.num_columns none)).2.locks = s.locks ∧
    (updateQ s none k (List.replicate s.table.num_columns none)).2.undo = s.undo := by
  unfold updateQ updateCore updateBody
  dsimp only
  rw [if_neg (by simp), h1]
  dsimp only
  rcases hbr : buildRecord s.table s.pool rid (List.replicate s.table.num_columns 1)
    with ⟨r, pool₁⟩
  rw [hbr] at h2
  cases r with
  | error e => exact absurd h2 (by simp [isOkB])
  | ok old_full =>
    cases hpd : alookup rid s.table.page_directory with
    | none =>
      exfalso
      unfold buildRecord at hbr
      rw [hpd] at hbr
      simp at hbr
    | some base =>
      dsimp only
      rw [if_pos]
      · unfold catchQ
        exact ⟨rfl, rfl, rfl, rfl⟩
      · simp

/-- A one-record table used as a concrete witness state: primary key 1
maps to base rid 1 with columns `[1,2,3,4,5]` and an empty chain. -/
def tblC4 : TableState :=
  { initTable "T" 5 0 with
    page_directory := [(1, ⟨0, 1, 0, List.replicate 5 false, [1, 2, 3, 4, 5]⟩)],
    key_to_rid := [(1, 1)],
    next_rid := 2 }

/-- The witness system around `tblC4` (fresh pool, no locks held). -/
def sysC4 : Sys :=
  { table := tblC4, pool := Pool.new 128 (fun _ => none), locks := [], undo := [], clock := 0 }

theorem update_all_none_noop_witness :
    (alookup (1 : Int) sysC4.table.key_to_rid = some 1 ∧
      isOkB (buildRecord sysC4.table sysC4.pool 1
        (List.replicate sysC4.table.num_columns 1)).1 = true) ∧
    ((updateQ sysC4 none 1 (List.replicate sysC4.table.num_columns none)).1 = .ok true ∧
      (updateQ sysC4 none 1 (List.replicate sysC4.table.num_columns none)).2.table =
        sysC4.table ∧
      (updateQ sysC4 none 1 (List.replicate sysC4.table.num_columns none)).2.locks =
        sysC4.locks ∧
      (updateQ sysC4 none 1 (List.replicate sysC4.table.num_columns none)).2.undo =
        sysC4.undo) :=
  ⟨⟨rfl, rfl⟩, update_all_none_noop sysC4 1 1 rfl rfl⟩

lemma catchQ_isOk {α : Type} (r : Except Err α × Sys) (d : α) : isOkB (catchQ r d).1 = true := by
  rcases r with ⟨r, s₁⟩
  cases r <;> rfl

/-- C3 (amended): every Query operation that the source wraps in
`try/except` — insert, update, delete, select, select_version, sum and
sum_version — never lets an exception cross the Query boundary, for
every state and argument list: write operations return a boolean and
read operations return a list or `False`.  `increment` is the one
operation without such a wrapper (see the counterexample). -/
theorem wrapped_query_ops_never_raise :
    (∀ s txn cols, isOkB (insertQ s txn cols).1 = true) ∧
    (∀ s txn pk cols, isOkB (updateQ s txn pk cols).1 = true) ∧
    (∀ s txn pk, isOkB (deleteQ s txn pk).1 = true) ∧
    (∀ s txn k idx mask, isOkB (selectQ s txn k idx mask).1 = true) ∧
    (∀ s txn k idx mask rv, isOkB (selectVersionQ s txn k idx mask rv).1 = true) ∧
    (∀ s a b c, isOkB (sumQ s a b c).1 = true) ∧
    (∀ s a b c rv, isOkB (sumVersionQ s a b c rv).1 = true) := by
  refine ⟨?_, ?_, ?_, ?_, ?_, ?_, ?_⟩ <;> intros <;> apply catchQ_isOk

/-- C3 counterexample: `Query.increment` has no `try/except`;
incrementing column 7 of a 5-column table whose key 1 is present raises
an IndexError (`r.columns[column]`) that crosses the Query boundary
instead of returning false. -/
theorem increment_raises_counterexample :
    (incrementQ sysC4 none 1 7).1 = .error .indexError := by rfl

/-! ## Transaction (lstore/transaction.py)

A transaction is an ordered list of queued query calls
(`add_query(fn, table, *args)`); `Sys.undo` is the running
transaction's undo log.  The `_running` re-entrancy guard of `run` is
not modelled (a single top-level `run` call is considered). -/

/-- A queued query call: the operation plus its positional arguments
(the single-table counterpart of `(fn, args, table)` triples). -/
inductive TQuery where
  | qInsert (cols : List Int)
  | qUpdate (primary_key : Int) (cols : List (Option Int))
  | qDelete (primary_key : Int)
  | qSelect (search_key : Int) (search_key_index : Nat) (mask : List Nat)
  | qSelectVersion (search_key : Int) (search_key_index : Nat) (mask : List Nat) (rv : Int)
  | qSum (start_range end_range : Int) (agg : Nat)
  | qSumVersion (start_range end_range : Int) (agg : Nat) (rv : Int)
  | qIncrement (key : Int) (column : Nat)

/-- The lock-classification step of `Transaction._execute_once`: X on
`args[table.key]` for insert (an IndexError when the argument list is
too short propagates), X on `args[0]` for update/delete, S on `args[0]`
for select/select_version, and no lock otherwise.  Returns whether the
lock was granted. -/
def classifyLock (s : Sys) (tid : Nat) : TQuery → Except Err (Bool × Sys)
  | .qInsert cols =>
    match cols.get? s.table.key with
    | none => .error .indexError
    | some pk =>
      let g := acquireExclusive s.locks pk tid
      .ok (g.1, { s with locks := g.2 })
  | .qUpdate pk _ =>
    let g := acquireExclusive s.locks pk tid
    .ok (g.1, { s with locks := g.2 })
  | .qDelete pk =>
    let g := acquireExclusive s.locks pk tid
    .ok (g.1, { s with locks := g.2 })
  | .qSelect k _ _ =>
    let g := acquireShared s.locks k tid
    .ok (g.1, { s with locks := g.2 })
  | .qSelectVersion k _ _ _ =>
    let g := acquireShared s.locks k tid
    .ok (g.1, { s with locks := g.2 })
  | _ => .ok (true, s)

/-- `result = query(*args, transaction=self)` (with the `TypeError`
fallback calling `sum`/`sum_version` without the keyword); the boolean
is `result is not False`. -/
def invokeQuery (s : Sys) (tid : Nat) : TQuery → Except Err Bool × Sys
  | .qInsert cols => insertQ s (some tid) cols
  | .qUpdate pk cols => updateQ s (some tid) pk cols
  | .qDelete pk => deleteQ s (some tid) pk
  | .qSelect k idx mask =>
    match selectQ s (some tid) k idx mask with
    | (.error e, s₁) => (.error e, s₁)
    | (.ok .fls, s₁) => (.ok false, s₁)
    | (.ok (.recs _), s₁) => (.ok true, s₁)
  | .qSelectVersion k idx mask rv =>
    match selectVersionQ s (some tid) k idx mask rv with
    | (.error e, s₁) => (.error e, s₁)
    | (.ok .fls, s₁) => (.ok false, s₁)
    | (.ok (.recs _), s₁) => (.ok true, s₁)
  | .qSum a b c =>
    match sumQ s a b c with
    | (.error e, s₁) => (.error e, s₁)
    | (.ok .fls, s₁) => (.ok false, s₁)
    | (.ok (.val _), s₁) => (.ok true, s₁)
  | .qSumVersion a b c rv =>
    match sumVersionQ s a b c rv with
    | (.error e, s₁) => (.error e, s₁)
    | (.ok .fls, s₁) => (.ok false, s₁)
    | (.ok (.val _), s₁) => (.ok true, s₁)
  | .qIncrement k c => incrementQ s (some tid) k c

/-- `Transaction._execute_once`: per queued query, acquire the
classified lock (a refusal aborts retryably), invoke the query (an
uncaught exception propagates), and a `False` result aborts
non-retryably; all queries succeeding yields `(ok=true, _)`. -/
def executeOnce (tid : Nat) : List TQuery → Sys → Except Err (Bool × Bool) × Sys
  | [], s => (.ok (true, false), s)
  | q :: rest, s =>
    match classifyLock s tid q with
    | .error e => (.error e, s)
    | .ok (false, s₁) => (.ok (false, true), s₁)
    | .ok (true, s₁) =>
      match invokeQuery s₁ tid q with
      | (.error e, s₂) => (.error e, s₂)
      | (.ok false, s₂) => (.ok (false, false), s₂)
      | (.ok true, s₂) => executeOnce tid rest s₂

/-- The index-removal loop of the `insert` undo case. -/
def undoInsertIndexLoop (rid : Nat) :
    List (Option ColIndex) → List (Nat × Int) → Except Err (List (Option ColIndex))
  | indices, [] => .ok indices
  | indices, (c, val) :: rest =>
    match indices.get? c with
    | none => .error .indexError
    | some none => undoInsertIndexLoop rid indices rest
    | some (some idx) =>
      undoInsertIndexLoop rid (indices.set c (some (indexRemoveIdx idx (some val) rid))) rest

/-- The index re-add loop of the `delete` undo case (`indices[c]` is
subscripted before the `val is not None` test, as in the source). -/
def undoDeleteIndexLoop (rid : Nat) :
    List (Option ColIndex) → List (Nat × Option Int) → Except Err (List (Option ColIndex))
  | indices, [] => .ok indices
  | indices, (c, v) :: rest =>
    match indices.get? c with
    | none => .error .indexError
    | some none => undoDeleteIndexLoop rid indices rest
    | some (some idx) =>
      match v with
      | none => undoDeleteIndexLoop rid indices rest
      | some val =>
        undoDeleteIndexLoop rid (indices.set c (some (indexAddIdx idx (some val) rid))) rest

/-- The index-revert loop of the `update` undo case: remove the new
value and re-add the old one, for every column with a built index. -/
def undoUpdateIndexLoop (rid : Nat) (old_values new_values : List (Option Int)) :
    List (Option ColIndex) → List Nat → Except Err (List (Option ColIndex))
  | indices, [] => .ok indices
  | indices, c :: cs =>
    match old_values.get? c with
    | none => .error .indexError
    | some old_val =>
      let new_val := (new_values.get? c).getD none
      match indices.get? c with
      | none => .error .indexError
      | some none => undoUpdateIndexLoop rid old_values new_values indices cs
      | some (some idx) =>
        let idx₁ :=
          match new_val with
          | some nv => indexRemoveIdx idx (some nv) rid
          | none => idx
        let idx₂ :=
          match old_val with
          | some ov => indexAddIdx idx₁ (some ov) rid
          | none => idx₁
        undoUpdateIndexLoop rid old_values new_values (indices.set c (some idx₂)) cs

/-- `Transaction._apply_undo(action, payload)`: roll one logged action
back on the table. -/
def applyUndoE (t : TableState) : UndoEntry → Except Err TableState
  | .uInsert rid pk values =>
    let t₁ := { t with key_to_rid := aerase pk t.key_to_rid }
    let t₂ :=
      match alookup rid t₁.page_directory with
      | some record =>
        { t₁ with page_directory := aset rid { record with rid := 0 } t₁.page_directory }
      | none => t₁
    if values.isEmpty then .ok t₂
    else
      match undoInsertIndexLoop rid t₂.indices values.enum with
      | .error e => .error e
      | .ok indices₁ => .ok { t₂ with indices := indices₁ }
  | .uDelete rid pk values =>
    let t₁ :=
      match alookup rid t.page_directory with
      | some record =>
        { t with page_directory := aset rid { record with rid := rid } t.page_directory }
      | none => t
    let t₂ := { t₁ with key_to_rid := aset pk rid t₁.key_to_rid }
    match undoDeleteIndexLoop rid t₂.indices values.enum with
    | .error e => .error e
    | .ok indices₁ => .ok { t₂ with indices := indices₁ }
  | .uUpdate rid prev_tail new_tail old_values new_values =>
    let t₁ :=
      match alookup rid t.page_directory with
      | some base =>
        { t with page_directory := aset rid { base with indirection := prev_tail } t.page_directory }
      | none => t
    let t₂ :=
      match new_tail with
      | none => t₁
      | some nt =>
        match alookup nt t₁.page_directory with
        | some tl =>
          { t₁ with page_directory := aset nt { tl with rid := 0 } t₁.page_directory }
        | none => t₁
    match undoUpdateIndexLoop rid old_values new_values t₂.indices
        (List.range old_values.length) with
    | .error e => .error e
    | .ok indices₁ => .ok { t₂ with indices := indices₁ }

/-- `for action, payload in reversed(self.undo_log): self._apply_undo(...)`
(the caller passes the reversed log); an exception stops the rollback
and propagates, keeping the state reached so far. -/
def applyUndos : List UndoEntry → Sys → Except Err Unit × Sys
  | [], s => (.ok (), s)
  | e :: rest, s =>
    match applyUndoE s.table e with
    | .error err => (.error err, s)
    | .ok t₁ => applyUndos rest { s with table := t₁ }

/-- `Transaction.commit`: clear the undo log and release every lock
held by the transaction. -/
def commitT (tid : Nat) (s : Sys) : Sys :=
  { s with undo := [], locks := releaseAll s.locks tid }

/-- `Transaction.abort`: apply the undo log in reverse, clear it, and
release every lock held by the transaction. -/
def abortT (tid : Nat) (s : Sys) : Except Err Unit × Sys :=
  match applyUndos s.undo.reverse s with
  | (.error e, s₁) => (.error e, s₁)
  | (.ok _, s₁) => (.ok (), { s₁ with undo := [], locks := releaseAll s₁.locks tid })

/-- `Transaction.run`: loop — clear the undo log, execute once, commit
on success (returning True), abort on failure, retry only on a lock
conflict, return False otherwise.  Fuel bounds the retry loop
(`.ok none` models an endlessly retrying run); uncaught query
exceptions propagate out of `run`. -/
def runT (tid : Nat) (qs : List TQuery) : Nat → Sys → Except Err (Option Bool) × Sys
  | 0, s => (.ok none, s)
  | fuel + 1, s =>
    let s₀ := { s with undo := [] }
    match executeOnce tid qs s₀ with
    | (.error e, s₁) => (.error e, s₁)
    | (.ok (true, _), s₁) => (.ok (some true), commitT tid s₁)
    | (.ok (false, retry), s₁) =>
      match abortT tid s₁ with
      | (.error e, s₂) => (.error e, s₂)
      | (.ok _, s₂) =>
        if retry then runT tid qs fuel s₂ else (.ok (some false), s₂)

/-- No entry of the lock table is held (exclusively or shared) by the
transaction. -/
def txnFree (lt : LockTable) (tid : Nat) : Prop :=
  ∀ e ∈ lt, e.2.exclusive ≠ some tid ∧ tid ∉ e.2.shared

lemma releaseAll_txnFree (lt : LockTable) (tid : Nat) : txnFree (releaseAll lt tid) tid := by
  intro e he
  unfold releaseAll at he
  have he' := List.mem_filter.mp he
  rcases List.mem_map.mp he'.1 with ⟨e₀, he₀, heq⟩
  constructor
  · rw [← heq]
    show (releaseAllEntry tid e₀.2).exclusive ≠ some tid
    unfold releaseAllEntry
    dsimp only
    split
    · simp
    · next h => exact h
  · rw [← heq]
    exact Finset.not_mem_erase tid _

/-- C2 (amended): one pass of `Transaction.run` behaves by cases on the
execution outcome — when every queued query succeeds, `run` returns
True after committing (undo log cleared, every lock held by the
transaction released); when some query returns `False`, `run` returns
False after aborting (undo entries applied in reverse over the table,
undo log cleared, locks released); when a lock acquisition is refused,
the abort is followed by a retry of the loop rather than a False
return.  (`run` returns a boolean only when no queued query raises:
see the counterexample, where a queued `increment` makes `run` raise.) -/
theorem transaction_run_cases (tid : Nat) (qs : List TQuery) (s : Sys) (fuel : Nat) :
    (∀ s₁ retry, executeOnce tid qs { s with undo := [] } = (.ok (true, retry), s₁) →
      runT tid qs (fuel + 1) s = (.ok (some true), commitT tid s₁) ∧
      (commitT tid s₁).undo = [] ∧ (commitT tid s₁).table = s₁.table ∧
      txnFree (commitT tid s₁).locks tid) ∧
    (∀ s₁, executeOnce tid qs { s with undo := [] } = (.ok (false, false), s₁) →
      ∀ s₂, abortT tid s₁ = (.ok (), s₂) →
        runT tid qs (fuel + 1) s = (.ok (some false), s₂) ∧
        s₂.undo = [] ∧ txnFree s₂.locks tid ∧
        (∃ s₃, applyUndos s₁.undo.reverse s₁ = (.ok (), s₃) ∧ s₂.table = s₃.table)) ∧
    (∀ s₁, executeOnce tid qs { s with undo := [] } = (.ok (false, true), s₁) →
      ∀ s₂, abortT tid s₁ = (.ok (), s₂) →
        runT tid qs (fuel + 1) s = runT tid qs fuel s₂) := by
  refine ⟨?_, ?_, ?_⟩
  · intro s₁ retry hex
    have hrun : runT tid qs (fuel + 1) s = (.ok (some true), commitT tid s₁) := by
      unfold runT
      dsimp only
      rw [hex]
    exact ⟨hrun, rfl, rfl, releaseAll_txnFree _ _⟩
  · intro s₁ hex s₂ hab
    unfold abortT at hab
    rcases hau : applyUndos s₁.undo.reverse s₁ with ⟨r, s₃⟩
    rw [hau] at hab
    cases r with
    | error e => simp at hab
    | ok u =>
      cases u
      cases hab
      have hrun : runT tid qs (fuel + 1) s =
          (.ok (some false), { s₃ with undo := [], locks := releaseAll s₃.locks tid }) := by
        unfold runT
        dsimp only
        rw [hex]
        dsimp only
        unfold abortT
        rw [hau]
        rfl
      refine ⟨hrun, rfl, releaseAll_txnFree _ _, ⟨s₃, ?_, rfl⟩⟩
      rfl
  · intro s₁ hex s₂ hab
    unfold abortT at hab
    rcases hau : applyUndos s₁.undo.reverse s₁ with ⟨r, s₃⟩
    rw [hau] at hab
    cases r with
    | error e => simp at hab
    | ok u =>
      cases u
      cases hab
      conv_lhs => unfold runT
      dsimp only
      rw [hex]
      dsimp only
      unfold abortT
      rw [hau]
      rfl

/-- The concrete commit witness run: one queued insert on a fresh
system. -/
def sysC2 : Sys :=
  { table := initTable "Grades" 5 0, pool := Pool.new 128 (fun _ => none),
    locks := [], undo := [], clock := 0 }

theorem transaction_run_cases_witness :
    executeOnce 5 [TQuery.qInsert [1, 2, 3, 4, 5]] { sysC2 with undo := [] } =
      (.ok (true, false), (executeOnce 5 [TQuery.qInsert [1, 2, 3, 4, 5]]
        { sysC2 with undo := [] }).2) ∧
    runT 5 [TQuery.qInsert [1, 2, 3, 4, 5]] 1 sysC2 =
      (.ok (some true), commitT 5 (executeOnce 5 [TQuery.qInsert [1, 2, 3, 4, 5]]
        { sysC2 with undo := [] }).2) ∧
    txnFree (commitT 5 (executeOnce 5 [TQuery.qInsert [1, 2, 3, 4, 5]]
      { sysC2 with undo := [] }).2).locks 5 := by
  have h := (transaction_run_cases 5 [TQuery.qInsert [1, 2, 3, 4, 5]] sysC2 0).1
    (executeOnce 5 [TQuery.qInsert [1, 2, 3, 4, 5]] { sysC2 with undo := [] }).2 false rfl
  exact ⟨rfl, h.1, h.2.2.2⟩

/-- C2 counterexample: `Transaction.run()` does not always return a
boolean — a queued `increment(1, 7)` on a 5-column table whose key 1
is present raises an IndexError out of `run` (the query call is not
guarded and `increment` has no `try/except`). -/
theorem transaction_run_raises_counterexample :
    (runT 5 [TQuery.qIncrement 1 7] 1 sysC4).1 = .error .indexError := by rfl

end LStore
